import Mathlib

/-!
Basilisk II `macos_util.cpp`: a shallow embedding and its verified properties.

The development follows `src/BasiliskII/src/macos_util.cpp`:

* `EnqueueMac`, `is_drive_number_free`, `FindFreeDriveNumber` work on guest memory,
  modelled as a byte store read and written big-endian;
* `FileDiskLayout` is a pure function of the file size;
* `TimeToMacTime` and `MacTimeToTime` take the host's `localtime` and `mktime` as
  parameters (`Host`), and the two preferences `yearofs` and `dayofs` as arguments.

Machine integers are mathematical integers with the reductions modulo `2^32` / `2^64`
written out where the C code relies on them.
-/

namespace MacosUtil

/-! ## Machine integers -/

/-- Conversion of an integer to `uint32` (reduction modulo `2^32`). -/
def u32 (x : Int) : Nat := (x % 4294967296).toNat

/-- Conversion of an integer to a signed 32-bit `int` (two's complement wrap-around). -/
def i32 (x : Int) : Int := (x + 2147483648) % 4294967296 - 2147483648

/-- Conversion of an integer to a signed 64-bit value (`loff_t`). -/
def i64 (x : Int) : Int := (x + 9223372036854775808) % 18446744073709551616 - 9223372036854775808

/-- The operator `&` on two signed 32-bit operands: the bit patterns of the two's complement
representations are combined and the result is read back as a signed value. -/
def and32 (x y : Int) : Int := i32 (Int.ofNat (Nat.land (u32 x) (u32 y)))

/-- The operator `&` on two signed 64-bit operands. -/
def and64 (x y : Int) : Int :=
  i64 (Int.ofNat (Nat.land (x % 18446744073709551616).toNat (y % 18446744073709551616).toNat))

/-- The operator `~` on a signed operand. -/
def bitNot (x : Int) : Int := -x - 1

/-- The operator `!` of C, as an `int`. -/
def cNot (x : Int) : Int := if x = 0 then 1 else 0

/-- Addition of two `uint32` guest addresses. -/
def add32 (a b : Nat) : Nat := (a + b) % 4294967296

/-- Subtraction of two `uint32` guest addresses. -/
def sub32 (a b : Nat) : Nat := (a % 4294967296 + (4294967296 - b % 4294967296)) % 4294967296

/-! ## Guest memory -/

/-- Guest memory: one byte (taken modulo 256 when read) at every address. -/
abbrev Mem := Nat → Nat

/-- Modelled from the spec: the emulated memory accessor `ReadU16(addr)` of
`cpu_emulation.h`, an unchecked big-endian 16-bit read. -/
def ReadMacInt16 (m : Mem) (addr : Nat) : Nat :=
  m addr % 256 * 256 + m (addr + 1) % 256

/-- Modelled from the spec: the emulated memory accessor `ReadU32(addr)` of
`cpu_emulation.h`, an unchecked big-endian 32-bit read. -/
def ReadMacInt32 (m : Mem) (addr : Nat) : Nat :=
  m addr % 256 * 16777216 + m (addr + 1) % 256 * 65536 + m (addr + 2) % 256 * 256
    + m (addr + 3) % 256

/-- Modelled from the spec: the emulated memory accessor `WriteU32(addr, value)` of
`cpu_emulation.h`, an unchecked big-endian 32-bit write. -/
def WriteMacInt32 (m : Mem) (addr : Nat) (v : Nat) : Mem := fun x =>
  if x = addr then v / 16777216 % 256
  else if x = addr + 1 then v / 65536 % 256
  else if x = addr + 2 then v / 256 % 256
  else if x = addr + 3 then v % 256
  else m x

/-- Field offsets of `macos_util.h` (the `QElem`, `QHdr` and `DrvSts` records), which the
functions below take as a parameter. -/
structure Offsets where
  qLink : Nat
  qHead : Nat
  qTail : Nat
  dsQLink : Nat
  dsQDrive : Nat

/-- The offsets of the classic Mac OS records: `qLink = 0`, `qHead = 2`, `qTail = 6`,
`dsQLink = 6`, `dsQDrive = 12`. -/
def macOffsets : Offsets :=
  { qLink := 0, qHead := 2, qTail := 6, dsQLink := 6, dsQDrive := 12 }

/-- Two 32-bit fields at addresses `a` and `b` share no byte. -/
def Apart (a b : Nat) : Prop := a + 4 ≤ b ∨ b + 4 ≤ a

instance (a b : Nat) : Decidable (Apart a b) := by
  unfold Apart; infer_instance

/-! ## `EnqueueMac` -/

/-- The function `EnqueueMac(elem, list)`: the memory after the call. -/
def EnqueueMac (o : Offsets) (m : Mem) (elem list : Nat) : Mem :=
  let m1 := WriteMacInt32 m (add32 elem o.qLink) 0
  if ReadMacInt32 m1 (add32 list o.qTail) = 0 then
    let m2 := WriteMacInt32 m1 (add32 list o.qHead) elem
    WriteMacInt32 m2 (add32 list o.qTail) elem
  else
    let m2 := WriteMacInt32 m1 (add32 (ReadMacInt32 m1 (add32 list o.qTail)) o.qLink) elem
    WriteMacInt32 m2 (add32 list o.qTail) elem

/-! ## `FindFreeDriveNumber` -/

/-- The drive number of the drive queue element `e`:
`ReadMacInt16(d + dsQDrive)` with `d = e - dsQLink`. -/
def driveNumber (o : Offsets) (m : Mem) (e : Nat) : Nat :=
  ReadMacInt16 m (add32 (sub32 e o.dsQLink) o.dsQDrive)

/-- The `while (e)` loop of `is_drive_number_free`, started at element `e`; the first
argument bounds the number of iterations and `none` means the bound was reached. -/
def is_drive_number_free_loop (o : Offsets) (m : Mem) (num : Int) : Nat → Nat → Option Bool
  | 0, _ => none
  | fuel + 1, e =>
    if e = 0 then some true
    else if (driveNumber o m e : Int) = num then some false
    else is_drive_number_free_loop o m num fuel (ReadMacInt32 m (add32 e o.qLink))

/-- The function `is_drive_number_free(num)`: the loop started at the head of the drive queue. -/
def is_drive_number_free (o : Offsets) (m : Mem) (fuel : Nat) (num : Int) : Option Bool :=
  is_drive_number_free_loop o m num fuel (ReadMacInt32 m (add32 776 o.qHead))

/-- The function `FindFreeDriveNumber(num)`; `qfuel` bounds each scan of the queue, the
next argument bounds the number of candidates tried. -/
def FindFreeDriveNumber (o : Offsets) (m : Mem) (qfuel : Nat) : Nat → Int → Option Int
  | 0, _ => none
  | fuel + 1, num =>
    match is_drive_number_free o m qfuel num with
    | none => none
    | some true => some num
    | some false => FindFreeDriveNumber o m qfuel fuel (num + 1)

/-- The elements of the queue that starts at `e`, following at most `k` links. -/
def queueElems (o : Offsets) (m : Mem) : Nat → Nat → List Nat
  | 0, _ => []
  | k + 1, e =>
    if e = 0 then [] else e :: queueElems o m k (ReadMacInt32 m (add32 e o.qLink))

/-- The queue that starts at `e` reaches a zero link after at most `k` elements. -/
def queueEnds (o : Offsets) (m : Mem) : Nat → Nat → Bool
  | 0, e => e == 0
  | k + 1, e => e == 0 || queueEnds o m k (ReadMacInt32 m (add32 e o.qLink))

/-- The head of the drive queue, `ReadMacInt32(0x308 + qHead)`. -/
def driveQueueHead (o : Offsets) (m : Mem) : Nat := ReadMacInt32 m (add32 776 o.qHead)

/-! ## `FileDiskLayout` -/

/-- The function `FileDiskLayout(size, data, start_byte, real_size)`: the pair
`(start_byte, real_size)` it stores. -/
def FileDiskLayout (size : Int) (_data : List Nat) : Int × Int :=
  if size = 419284 ∨ size = 838484 then
    (84, and64 (i64 (size - 84)) (bitNot 511))
  else
    let start_byte := and64 size 511
    (start_byte, i64 (size - start_byte))

/-- The layout as the specification words it: 84 and the rounded payload for the two magic
sizes, otherwise a header of `size mod 512` bytes. -/
def FileDiskLayout_spec (size : Int) : Int × Int :=
  if size = 419284 ∨ size = 838484 then (84, (size - 84) / 512 * 512)
  else (size % 512, size - size % 512)

/-! ## Host calendar interface -/

/-- The fields of the C library's `struct tm`. -/
structure Tm where
  tm_sec : Int
  tm_min : Int
  tm_hour : Int
  tm_mday : Int
  tm_mon : Int
  tm_year : Int
  tm_wday : Int
  tm_yday : Int
  tm_isdst : Int
deriving DecidableEq, Repr

/-- The host's time facility: `localtime` (`none` is the null pointer it returns on failure)
and `mktime` (which returns `-1` on failure). `time_t` is an unbounded integer. -/
structure Host where
  localtime : Int → Option Tm
  mktime : Tm → Int

/-! ## `TimeToMacTime` -/

/-- The constant `TM_EPOCH_YEAR`. -/
def TM_EPOCH_YEAR : Int := 1900

/-- The constant `MAC_EPOCH_YEAR`. -/
def MAC_EPOCH_YEAR : Int := 1904

/-- The clipped year stored back in `local->tm_year`:
`std::max(MAC_EPOCH_YEAR - TM_EPOCH_YEAR, local->tm_year + PrefsFindInt32("yearofs"))`. -/
def clipYear (tm_year yearofs : Int) : Int :=
  max (MAC_EPOCH_YEAR - TM_EPOCH_YEAR) (i32 (tm_year + yearofs))

/-- The values `a4` (for `y = local->tm_year + TM_EPOCH_YEAR`, `r = local->tm_year`) and
`b4` (for `y = r = MAC_EPOCH_YEAR`): `(y >> 2) - !(r & 3)`. -/
def leap4 (y r : Int) : Int := i32 (Int.shiftRight y 2 - cNot (and32 r 3))

/-- The values `a100` and `b100`: `x / 25 - (x % 25 < 0)`, with the truncating `/` and `%`
of C. -/
def leap100 (x : Int) : Int := i32 (Int.tdiv x 25 - (if Int.tmod x 25 < 0 then 1 else 0))

/-- The values `a400` and `b400`: `x >> 2`. -/
def leap400 (x : Int) : Int := Int.shiftRight x 2

/-- The value `intervening_leap_days`, from the clipped `local->tm_year`. -/
def intervening_leap_days (tm_year : Int) : Int :=
  let a4 := leap4 (i32 (tm_year + TM_EPOCH_YEAR)) tm_year
  let b4 := leap4 MAC_EPOCH_YEAR MAC_EPOCH_YEAR
  let a100 := leap100 a4
  let b100 := leap100 b4
  let a400 := leap400 a100
  let b400 := leap400 b100
  i32 (i32 (i32 (a4 - b4) - i32 (a100 - b100)) + i32 (a400 - b400))

/-- The `uint32 days`, from the clipped `local->tm_year` and `local->tm_yday`. -/
def daysSinceMacEpoch (tm_year tm_yday : Int) : Nat :=
  u32 (i32 (i32 (tm_yday + i32 (365 * i32 (tm_year - 4))) + intervening_leap_days tm_year))

/-- The local `int32 dayofs` after the clamp
`if (dayofs > 0 && dayofs > days) dayofs = days;`, where `dayofs` starts as the negated
preference. -/
def clipDayofs (days : Nat) (dayofsPref : Int) : Int :=
  let dayofs := i32 (-dayofsPref)
  if dayofs > 0 ∧ u32 dayofs > days then i32 (Int.ofNat days) else dayofs

/-- The returned expression
`tm_sec + 60 * (tm_min + 60 * (tm_hour + 24 * (days - dayofs)))`, all in `uint32`. -/
def macSeconds (tm : Tm) (days : Nat) (dayofs : Int) : Nat :=
  u32 (tm.tm_sec + 60 * Int.ofNat (u32 (tm.tm_min + 60 * Int.ofNat (u32 (tm.tm_hour
    + 24 * Int.ofNat (u32 (Int.ofNat days - dayofs)))))))

/-- The body of `TimeToMacTime` after the call of `localtime`, on the breakdown `tm`. -/
def macTimeOfTm (tm : Tm) (yearofs dayofs : Int) : Nat :=
  let tm_year := clipYear tm.tm_year yearofs
  let days := daysSinceMacEpoch tm_year tm.tm_yday
  macSeconds tm days (clipDayofs days dayofs)

/-- The function `TimeToMacTime(t)`. `win32` selects the `#ifdef WIN32` guard; `yearofs`
and `dayofs` are the values of the two preferences. The result is `none` when `localtime`
returns a null pointer, which the code dereferences. -/
def TimeToMacTime (win32 : Bool) (h : Host) (yearofs dayofs : Int) (t : Int) : Option Nat :=
  if win32 = true ∧ t = -1 then some 0
  else
    match h.localtime t with
    | none => none
    | some tm => some (macTimeOfTm tm yearofs dayofs)

/-! ## `MacTimeToTime` -/

/-- The `struct tm local` that `MacTimeToTime` hands to `mktime`: 1 January 1971 when
`MKTIME_START_LATER` is set (on `WIN32`), 1 January 1904 otherwise. The code leaves
`tm_wday` and `tm_yday` unset; `mktime` does not read them and they are zero here. -/
def startingPoint (win32 : Bool) : Tm :=
  { tm_year := if win32 then 71 else 4, tm_mon := 0, tm_mday := 1, tm_hour := 0,
    tm_min := 0, tm_sec := 0, tm_isdst := -1, tm_wday := 0, tm_yday := 0 }

/-- The instant `out` after `out -= 2114380800` (with `MKTIME_START_LATER`) and
`out += (time_t) t`, from the value `start` that `mktime` gave. -/
def provisional (win32 : Bool) (start : Int) (t : Nat) : Int :=
  (if win32 then start - 2114380800 else start) + Int.ofNat t

/-- The function `MacTimeToTime(t)`. `win32` selects the `WIN32` / `MKTIME_START_LATER`
branches; `yearofs` and `dayofs` are the values of the two preferences. Without `WIN32`
the breakdown is read from the stack variable `result` whatever `localtime_r` returns;
`result0` is what `result` holds when `localtime_r` fails and writes nothing. -/
def MacTimeToTime (win32 : Bool) (h : Host) (result0 : Tm) (yearofs dayofs : Int)
    (t : Nat) : Int :=
  let start := h.mktime (startingPoint win32)
  if start = -1 then -1
  else
    let out := provisional win32 start t
    if dayofs ≠ 0 ∨ yearofs ≠ 0 then
      let out_tm : Option Tm :=
        if win32 then h.localtime out
        else some ((h.localtime out).getD result0)
      match out_tm with
      | some r =>
        let offset_adjusted :=
          h.mktime
            { r with tm_year := i32 (r.tm_year - yearofs), tm_mday := i32 (r.tm_mday - dayofs) }
        if offset_adjusted ≠ -1 then offset_adjusted else out
      | none => out
    else out

/-! ## A host with a proleptic Gregorian calendar at a fixed offset from UTC -/

/-- Number of leap years among the years `1 .. y`. -/
def leapsThrough (y : Int) : Int := y / 4 - y / 100 + y / 400

/-- Gregorian leap year rule. -/
def isLeapYear (y : Int) : Bool := (y % 4 = 0 ∧ y % 100 ≠ 0) ∨ y % 400 = 0

/-- Length of the year `y` in days. -/
def yearLength (y : Int) : Int := if isLeapYear y then 366 else 365

/-- Days from 1 January 1970 to 1 January of the year `y`. -/
def daysBeforeYear (y : Int) : Int :=
  365 * (y - 1970) + (leapsThrough (y - 1) - leapsThrough 1969)

/-- The year that contains day `d` (counted from 1 January 1970). -/
def yearOfDay (d : Int) : Int :=
  let y0 := 1970 + d * 400 / 146097
  if d < daysBeforeYear y0 then y0 - 1
  else if daysBeforeYear (y0 + 1) ≤ d then y0 + 1
  else y0

/-- Days of the year before the first day of month `mon` (`0 .. 11`). -/
def daysBeforeMonth (leap : Bool) (mon : Int) : Int :=
  let l : Int := if leap then 1 else 0
  if mon ≤ 0 then 0
  else if mon = 1 then 31
  else if mon = 2 then 59 + l
  else if mon = 3 then 90 + l
  else if mon = 4 then 120 + l
  else if mon = 5 then 151 + l
  else if mon = 6 then 181 + l
  else if mon = 7 then 212 + l
  else if mon = 8 then 243 + l
  else if mon = 9 then 273 + l
  else if mon = 10 then 304 + l
  else 334 + l

/-- The month (`0 .. 11`) that contains the day of the year `yday`: the number of the
months `1 .. 11` that start at or before `yday`. -/
def monthOfYday (leap : Bool) (yday : Int) : Int :=
  Int.ofNat ((List.range 11).filter
    (fun i => decide (daysBeforeMonth leap (Int.ofNat i + 1) ≤ yday))).length

/-- Calendar breakdown of `s` seconds counted from 1 January 1970, 00:00. -/
def civil (s : Int) : Tm :=
  let d := s / 86400
  let r := s % 86400
  let y := yearOfDay d
  let yd := d - daysBeforeYear y
  let mon := monthOfYday (isLeapYear y) yd
  { tm_sec := r % 60, tm_min := r / 60 % 60, tm_hour := r / 3600,
    tm_mday := yd - daysBeforeMonth (isLeapYear y) mon + 1, tm_mon := mon,
    tm_year := y - 1900, tm_wday := (d + 4) % 7, tm_yday := yd, tm_isdst := 0 }

/-- Seconds from 1 January 1970, 00:00 to the calendar date and time in `tm`; fields out of
range carry into the next larger one, as with `mktime`. -/
def civilSeconds (tm : Tm) : Int :=
  let y := 1900 + tm.tm_year + tm.tm_mon / 12
  let mon := tm.tm_mon % 12
  (daysBeforeYear y + daysBeforeMonth (isLeapYear y) mon + (tm.tm_mday - 1)) * 86400
    + tm.tm_hour * 3600 + tm.tm_min * 60 + tm.tm_sec

/-- A host whose local time is the Gregorian calendar `off` seconds ahead of UTC, with no
daylight saving change, and which represents exactly the instants `t` with `rep t`:
`localtime` fails outside them and `mktime` returns `-1` for a date outside them. -/
def calendarHost (off : Int) (rep : Int → Bool) : Host :=
  { localtime := fun t => if rep t then some (civil (t + off)) else none,
    mktime := fun tm => if rep (civilSeconds tm - off) then civilSeconds tm - off else -1 }

/-- Guest memory that is zero everywhere: in particular the list header at 2000 is an empty
list. -/
def zeroMem : Mem := fun _ => 0

/-- A host at UTC that represents no instant before 1970, like the C runtime that
`MKTIME_START_LATER` is for. -/
def from1970Host : Host := calendarHost 0 (fun t => decide (0 ≤ t))

/-- A host at UTC whose `mktime` converts every date and whose `localtime` fails on the
instants before 1970. -/
def noPastHost : Host :=
  { localtime := fun t => if 0 ≤ t then some (civil t) else none,
    mktime := fun tm => civilSeconds tm }

/-- No element of the list `l` has the drive number `num`. -/
def freeAmong (o : Offsets) (m : Mem) (l : List Nat) (num : Int) : Bool :=
  l.all (fun e => decide ((driveNumber o m e : Int) ≠ num))

/-- Guest memory given by a table of bytes; zero elsewhere. -/
def memOfBytes (l : List (Nat × Nat)) : Mem := fun a => (l.lookup a).getD 0

/-- A drive queue of three elements at 4102, 4202 and 4302 (classic offsets: the head
field is at 778, the drive number of element `e` is at `e + 6`), with the drive numbers
5, 6 and 8. -/
def queue568 : Mem :=
  memOfBytes [(780, 16), (781, 6), (4104, 16), (4105, 106), (4204, 16), (4205, 206),
    (4109, 5), (4209, 6), (4309, 8)]

/-- The day count of `TimeToMacTime` before conversion to `uint32`, as an exact integer:
`tm_yday + 365 * (tm_year - 4)` plus the leap days of the years from 1904 to the year
before `tm_year + 1900`. -/
def exactDays (tm_year tm_yday : Int) : Int :=
  tm_yday + 365 * (tm_year - 4) + (leapsThrough (tm_year + 1899) - leapsThrough 1903)

/-- A host at UTC that represents every instant. -/
def utcHost : Host := calendarHost 0 (fun _ => true)

/-! ## `DebugUtil` -/

/-- Selector values and the error code of `macos_util.h` that `DebugUtil` refers to, taken
as a parameter. -/
structure DebugConsts where
  duDebuggerGetMax : Nat
  duDebuggerEnter : Nat
  duDebuggerExit : Nat
  duDebuggerPoll : Nat
  paramErr : Int

/-- The values of the classic Mac OS interfaces: selectors 0, 1, 2, 3 and
`paramErr = -50`. -/
def macDebugConsts : DebugConsts :=
  { duDebuggerGetMax := 0, duDebuggerEnter := 1, duDebuggerExit := 2, duDebuggerPoll := 3,
    paramErr := -50 }

/-- Modelled from the spec: the device interrupt signal `ADBInterrupt()` of `adb.h`, a
notification without argument; the state is the number of times it has been invoked. -/
def ADBInterrupt (calls : Nat) : Nat := calls + 1

/-- The function `DebugUtil(Selector)`: the returned `uint32` and the number of invocations
of `ADBInterrupt` after the call, from their number `calls` before it. -/
def DebugUtil (c : DebugConsts) (Selector : Nat) (calls : Nat) : Nat × Nat :=
  if Selector = c.duDebuggerGetMax then (3, calls)
  else if Selector = c.duDebuggerEnter then (0, calls)
  else if Selector = c.duDebuggerExit then (0, calls)
  else if Selector = c.duDebuggerPoll then (0, ADBInterrupt calls)
  else (u32 c.paramErr, calls)

/-! ## Calendar notions used to state the properties of `TimeToMacTime` -/

/-- The sum of the lengths of the `n` years `y0, y0 + 1, ..., y0 + n - 1`. -/
def daysInYears (y0 : Int) : Nat → Int
  | 0 => 0
  | n + 1 => daysInYears y0 n + yearLength (y0 + n)

/-- A breakdown of a local date and time with the year in 1904 .. 2039, the day of the
year within the year, and hour, minute, second in `0 .. 23`, `0 .. 59`, `0 .. 59`. -/
def ValidLocal (tm : Tm) : Prop :=
  4 ≤ tm.tm_year ∧ tm.tm_year ≤ 139 ∧
  0 ≤ tm.tm_yday ∧ tm.tm_yday < yearLength (tm.tm_year + 1900) ∧
  0 ≤ tm.tm_hour ∧ tm.tm_hour ≤ 23 ∧ 0 ≤ tm.tm_min ∧ tm.tm_min ≤ 59 ∧
  0 ≤ tm.tm_sec ∧ tm.tm_sec ≤ 59

instance (tm : Tm) : Decidable (ValidLocal tm) := by
  unfold ValidLocal; infer_instance

/-- Strict lexicographic order on (year, day of the year, hour, minute, second). -/
def LexLess (a b : Tm) : Prop :=
  a.tm_year < b.tm_year ∨ (a.tm_year = b.tm_year ∧
    (a.tm_yday < b.tm_yday ∨ (a.tm_yday = b.tm_yday ∧
      (a.tm_hour < b.tm_hour ∨ (a.tm_hour = b.tm_hour ∧
        (a.tm_min < b.tm_min ∨ (a.tm_min = b.tm_min ∧ a.tm_sec < b.tm_sec)))))))

instance (a b : Tm) : Decidable (LexLess a b) := by
  unfold LexLess; infer_instance

/-! ## Queues in guest memory -/

/-- Following the link fields from `e` yields exactly the records `l`, each at a non-zero
address, and then a zero link. -/
def linked (o : Offsets) (m : Mem) : Nat → List Nat → Bool
  | e, [] => e == 0
  | e, x :: xs => e == x && x != 0 && linked o m (ReadMacInt32 m (add32 x o.qLink)) xs

/-- The byte address `a` lies in the 32-bit field at address `f`. -/
def inField (f a : Nat) : Prop := f ≤ a ∧ a < f + 4

instance (f a : Nat) : Decidable (inField f a) := by
  unfold inField; infer_instance

/-! ## A host with daylight saving time -/

/-- The daylight saving rule of `dstHost`: in effect when the UTC date of the instant `t`
is one of the days 90 .. 299 of its year. -/
def dstActive (t : Int) : Bool :=
  decide (90 ≤ (civil t).tm_yday ∧ (civil t).tm_yday < 300)

/-- A host on the Gregorian calendar whose local time is UTC, and one hour ahead of UTC
while daylight saving is in effect. Its `localtime` records that in `tm_isdst`; its `mktime`
follows `tm_isdst` when that is not negative, and otherwise applies the rule to the date
and time read as UTC. -/
def dstHost : Host :=
  { localtime := fun t =>
      if dstActive t then some { civil (t + 3600) with tm_isdst := 1 } else some (civil t),
    mktime := fun tm =>
      if tm.tm_isdst > 0 then civilSeconds tm - 3600
      else if tm.tm_isdst = 0 then civilSeconds tm
      else if dstActive (civilSeconds tm) then civilSeconds tm - 3600
      else civilSeconds tm }

/-- Guest memory with an empty list header at 2000 and the bytes `DE AD BE EF` left in the
link field of the record at 1100. -/
def staleEmptyMem : Mem :=
  memOfBytes [(1100, 222), (1101, 173), (1102, 190), (1103, 239)]

/-- Guest memory in which the list at 2000 holds the record at 1000 (head and tail fields
1000, link field of 1000 zero) and the bytes `DE AD BE EF` are left in the link field of
the record at 1100. -/
def staleQueueMem : Mem :=
  memOfBytes [(2004, 3), (2005, 232), (2008, 3), (2009, 232),
    (1100, 222), (1101, 173), (1102, 190), (1103, 239)]

/-! # Theorems -/

/-! ## Guest memory: reading back what was written -/

theorem read_write_same (m : Mem) (a v : Nat) :
    ReadMacInt32 (WriteMacInt32 m a v) a = v % 4294967296 := by
  simp only [ReadMacInt32, WriteMacInt32]
  simp
  omega

theorem read_write_apart (m : Mem) (a b v : Nat) (h : Apart a b) :
    ReadMacInt32 (WriteMacInt32 m a v) b = ReadMacInt32 m b := by
  unfold Apart at h
  have h0 : ¬ b = a := by omega
  have h1 : ¬ b = a + 1 := by omega
  have h2 : ¬ b = a + 2 := by omega
  have h3 : ¬ b = a + 3 := by omega
  have h4 : ¬ b + 1 = a := by omega
  have h5 : ¬ b + 1 = a + 2 := by omega
  have h6 : ¬ b + 1 = a + 3 := by omega
  have h7 : ¬ b + 2 = a := by omega
  have h8 : ¬ b + 2 = a + 1 := by omega
  have h9 : ¬ b + 2 = a + 3 := by omega
  have h10 : ¬ b + 3 = a := by omega
  have h11 : ¬ b + 3 = a + 1 := by omega
  have h12 : ¬ b + 3 = a + 2 := by omega
  simp only [ReadMacInt32, WriteMacInt32]
  simp [h0, h1, h2, h3, h4, h5, h6, h7, h8, h9, h10, h11, h12]

theorem Apart.symm {a b : Nat} (h : Apart a b) : Apart b a := by
  unfold Apart at *; omega

/-! ## `EnqueueMac` -/

/-- The list's tail field as `EnqueueMac` reads it, after it has cleared the link field of
`elem`, when the two fields share no byte. -/
theorem tail_after_clear (o : Offsets) (m : Mem) (elem list : Nat)
    (hET : Apart (add32 elem o.qLink) (add32 list o.qTail)) :
    ReadMacInt32 (WriteMacInt32 m (add32 elem o.qLink) 0) (add32 list o.qTail)
      = ReadMacInt32 m (add32 list o.qTail) :=
  read_write_apart m _ _ 0 hET

/-- C7. `EnqueueMac` on a list header and element records that do not overlap: on an empty
list (tail field zero) the head and the tail field become `elem` and the link field of
`elem` is zero; on a list whose tail record is `e1`, the link field of `e1` and the tail
field become `elem`, the link field of `elem` is zero and the head field keeps its value. -/
theorem EnqueueMac_empty_and_second (o : Offsets) (m : Mem) (elem list : Nat)
    (helem : elem < 4294967296)
    (hHT : Apart (add32 list o.qHead) (add32 list o.qTail))
    (hEH : Apart (add32 elem o.qLink) (add32 list o.qHead))
    (hET : Apart (add32 elem o.qLink) (add32 list o.qTail)) :
    (ReadMacInt32 m (add32 list o.qTail) = 0 →
      ReadMacInt32 (EnqueueMac o m elem list) (add32 list o.qHead) = elem ∧
      ReadMacInt32 (EnqueueMac o m elem list) (add32 list o.qTail) = elem ∧
      ReadMacInt32 (EnqueueMac o m elem list) (add32 elem o.qLink) = 0) ∧
    (∀ e1 : Nat, ReadMacInt32 m (add32 list o.qTail) = e1 → e1 ≠ 0 →
      Apart (add32 e1 o.qLink) (add32 elem o.qLink) →
      Apart (add32 e1 o.qLink) (add32 list o.qHead) →
      Apart (add32 e1 o.qLink) (add32 list o.qTail) →
      ReadMacInt32 (EnqueueMac o m elem list) (add32 e1 o.qLink) = elem ∧
      ReadMacInt32 (EnqueueMac o m elem list) (add32 list o.qTail) = elem ∧
      ReadMacInt32 (EnqueueMac o m elem list) (add32 elem o.qLink) = 0 ∧
      ReadMacInt32 (EnqueueMac o m elem list) (add32 list o.qHead)
        = ReadMacInt32 m (add32 list o.qHead)) := by
  have hmod : elem % 4294967296 = elem := Nat.mod_eq_of_lt helem
  have hzero : (0 : Nat) % 4294967296 = 0 := rfl
  constructor
  · intro h0
    have hbr : ReadMacInt32 (WriteMacInt32 m (add32 elem o.qLink) 0) (add32 list o.qTail) = 0 := by
      rw [tail_after_clear o m elem list hET]; exact h0
    simp only [EnqueueMac, hbr, if_true]
    refine ⟨?_, ?_, ?_⟩
    · rw [read_write_apart _ _ _ _ hHT.symm, read_write_same, hmod]
    · rw [read_write_same, hmod]
    · rw [read_write_apart _ _ _ _ hET.symm, read_write_apart _ _ _ _ hEH.symm,
        read_write_same]
  · intro e1 he1 hne hE1E hE1H hE1T
    have hbr : ReadMacInt32 (WriteMacInt32 m (add32 elem o.qLink) 0) (add32 list o.qTail) = e1 := by
      rw [tail_after_clear o m elem list hET]; exact he1
    simp only [EnqueueMac, hbr, if_neg hne]
    refine ⟨?_, ?_, ?_, ?_⟩
    · rw [read_write_apart _ _ _ _ hE1T.symm, read_write_same, hmod]
    · rw [read_write_same, hmod]
    · rw [read_write_apart _ _ _ _ hET.symm, read_write_apart _ _ _ _ hE1E,
        read_write_same]
    · rw [read_write_apart _ _ _ _ hHT.symm, read_write_apart _ _ _ _ hE1H,
        read_write_apart _ _ _ _ hEH]

/-- C7, witness: with the classic offsets, the element at 1000 is enqueued on the empty list
at 2000, then the element at 1100 is enqueued on the resulting list. -/
theorem EnqueueMac_empty_and_second_witness :
    (ReadMacInt32 (EnqueueMac macOffsets zeroMem 1000 2000) 2002 = 1000 ∧
      ReadMacInt32 (EnqueueMac macOffsets zeroMem 1000 2000) 2006 = 1000 ∧
      ReadMacInt32 (EnqueueMac macOffsets zeroMem 1000 2000) 1000 = 0) ∧
    (ReadMacInt32 (EnqueueMac macOffsets (EnqueueMac macOffsets zeroMem 1000 2000) 1100 2000)
        1000 = 1100 ∧
      ReadMacInt32 (EnqueueMac macOffsets (EnqueueMac macOffsets zeroMem 1000 2000) 1100 2000)
        2006 = 1100 ∧
      ReadMacInt32 (EnqueueMac macOffsets (EnqueueMac macOffsets zeroMem 1000 2000) 1100 2000)
        1100 = 0 ∧
      ReadMacInt32 (EnqueueMac macOffsets (EnqueueMac macOffsets zeroMem 1000 2000) 1100 2000)
        2002 = 1000) :=
  ⟨(EnqueueMac_empty_and_second macOffsets zeroMem 1000 2000 (by decide) (by decide)
      (by decide) (by decide)).1 (by decide),
   (EnqueueMac_empty_and_second macOffsets (EnqueueMac macOffsets zeroMem 1000 2000) 1100 2000
      (by decide) (by decide) (by decide) (by decide)).2 1000 (by decide) (by decide)
      (by decide) (by decide) (by decide)⟩

/-- C8, as stated, fails: when the element at 1000 is already the tail of the list at 2000
(it was enqueued once), enqueueing it again leaves its own address in its link field. -/
theorem EnqueueMac_link_not_always_zero :
    ReadMacInt32 (EnqueueMac macOffsets (EnqueueMac macOffsets zeroMem 1000 2000) 1000 2000)
      (add32 1000 macOffsets.qLink) = 1000 := by
  decide

/-- C8, amended. After `EnqueueMac(elem, list)` the link field of `elem` reads zero, when
that field shares no byte with the list's tail field, with the head field (on an empty
list), or with the link field of the current tail record (on a non-empty list). -/
theorem EnqueueMac_link_zero (o : Offsets) (m : Mem) (elem list : Nat)
    (hET : Apart (add32 elem o.qLink) (add32 list o.qTail))
    (hEH : ReadMacInt32 m (add32 list o.qTail) = 0 →
      Apart (add32 elem o.qLink) (add32 list o.qHead))
    (hE1 : ReadMacInt32 m (add32 list o.qTail) ≠ 0 →
      Apart (add32 elem o.qLink) (add32 (ReadMacInt32 m (add32 list o.qTail)) o.qLink)) :
    ReadMacInt32 (EnqueueMac o m elem list) (add32 elem o.qLink) = 0 := by
  have hbr := tail_after_clear o m elem list hET
  by_cases h0 : ReadMacInt32 m (add32 list o.qTail) = 0
  · simp only [EnqueueMac, hbr, h0, if_true]
    rw [read_write_apart _ _ _ _ hET.symm, read_write_apart _ _ _ _ (hEH h0).symm,
      read_write_same]
  · simp only [EnqueueMac, hbr, if_neg h0]
    rw [read_write_apart _ _ _ _ hET.symm, read_write_apart _ _ _ _ (hE1 h0).symm,
      read_write_same]

/-- C8, amended, witness: the record at 1100, whose link field holds the stale bytes
`DE AD BE EF`, is enqueued on the empty list at 2000, and on the list at 2000 whose tail is
the record at 1000; in both cases its link field reads zero afterwards. -/
theorem EnqueueMac_link_zero_witness :
    (ReadMacInt32 staleEmptyMem (add32 1100 macOffsets.qLink) = 3735928559 ∧
      ReadMacInt32 staleEmptyMem (add32 2000 macOffsets.qTail) = 0 ∧
      ReadMacInt32 (EnqueueMac macOffsets staleEmptyMem 1100 2000)
        (add32 1100 macOffsets.qLink) = 0) ∧
    (ReadMacInt32 staleQueueMem (add32 1100 macOffsets.qLink) = 3735928559 ∧
      ReadMacInt32 staleQueueMem (add32 2000 macOffsets.qTail) = 1000 ∧
      ReadMacInt32 (EnqueueMac macOffsets staleQueueMem 1100 2000)
        (add32 1100 macOffsets.qLink) = 0) :=
  ⟨⟨by decide, by decide,
    EnqueueMac_link_zero macOffsets staleEmptyMem 1100 2000 (by decide) (fun _ => by decide)
      (fun h => absurd (by decide) h)⟩,
   ⟨by decide, by decide,
    EnqueueMac_link_zero macOffsets staleQueueMem 1100 2000 (by decide)
      (fun h => absurd h (by decide)) (fun _ => by decide)⟩⟩

/-! ## `FileDiskLayout` -/

/-- The operator `& 0x1ff` on a 64-bit signed value is the remainder modulo 512. -/
theorem and64_511 (x : Int) : and64 x 511 = x % 512 := by
  unfold and64 i64
  have h511 : ((511 : Int) % 18446744073709551616).toNat = 2 ^ 9 - 1 := by decide
  have hland : ∀ a b : Nat, Nat.land a b = a &&& b := fun _ _ => rfl
  rw [h511, hland, Nat.and_pow_two_sub_one_eq_mod]
  have h1 : (0 : Int) ≤ x % 18446744073709551616 := Int.emod_nonneg _ (by decide)
  have h2 : ((x % 18446744073709551616).toNat : Int) = x % 18446744073709551616 :=
    Int.toNat_of_nonneg h1
  have h3 : Int.ofNat ((x % 18446744073709551616).toNat % 2 ^ 9)
      = (x % 18446744073709551616) % 512 := by
    rw [Int.ofNat_eq_coe, Int.natCast_mod, h2]; rfl
  rw [h3]
  omega

/-- The header bytes are not looked at. -/
theorem FileDiskLayout_ignores_data (size : Int) (data : List Nat) :
    FileDiskLayout size data = FileDiskLayout size [] := rfl

/-- C4, as stated, fails: for the size 419284 the payload size is not 419200 (which is not
a multiple of 512). -/
theorem FileDiskLayout_magic_not_419200 : FileDiskLayout 419284 [] ≠ (84, 419200) := by
  decide

/-- C4, amended. For the two magic floppy sizes, whatever the header bytes,
`FileDiskLayout(419284, _) = (84, 418816)` and `FileDiskLayout(838484, _) = (84, 838144)`:
the start byte is 84 and the payload is `size - 84` rounded down to a multiple of 512. -/
theorem FileDiskLayout_magic (data : List Nat) :
    FileDiskLayout 419284 data = (84, 418816) ∧ FileDiskLayout 838484 data = (84, 838144) := by
  constructor <;> rw [FileDiskLayout_ignores_data] <;> decide

/-- C5. For every size of the type `loff_t`, `FileDiskLayout` is the layout of the
specification: 84 and `size - 84` rounded down to a multiple of 512 for the sizes 419284
and 838484, otherwise `start_byte = size mod 512`, in `0 .. 511`, and
`real_size = size - start_byte`; in particular the sizes 1474560 and 1474561 give
`(0, 1474560)` and `(1, 1474560)`. -/
theorem FileDiskLayout_eq_spec (size : Int) (data : List Nat)
    (hlo : -9223372036854775808 ≤ size) (hhi : size < 9223372036854775808) :
    FileDiskLayout size data = FileDiskLayout_spec size ∧
    (¬ (size = 419284 ∨ size = 838484) →
      (FileDiskLayout size data).1 = size % 512 ∧
      0 ≤ (FileDiskLayout size data).1 ∧ (FileDiskLayout size data).1 ≤ 511 ∧
      (FileDiskLayout size data).2 = size - (FileDiskLayout size data).1) ∧
    FileDiskLayout 1474560 data = (0, 1474560) ∧
    FileDiskLayout 1474561 data = (1, 1474560) := by
  have hgen : ¬ (size = 419284 ∨ size = 838484) →
      FileDiskLayout size data = (size % 512, size - size % 512) := by
    intro hm
    simp only [FileDiskLayout, if_neg hm, and64_511]
    have : i64 (size - size % 512) = size - size % 512 := by unfold i64; omega
    rw [this]
  refine ⟨?_, ?_, by rw [FileDiskLayout_ignores_data]; decide,
    by rw [FileDiskLayout_ignores_data]; decide⟩
  · by_cases hm : size = 419284 ∨ size = 838484
    · rcases hm with h | h <;> subst h <;> rw [FileDiskLayout_ignores_data] <;> decide
    · rw [hgen hm]; simp only [FileDiskLayout_spec, if_neg hm]
  · intro hm
    rw [hgen hm]
    refine ⟨rfl, ?_, ?_, rfl⟩ <;> simp only <;> omega

/-- C5, witness: a 1.44 MB image with one stray leading byte. -/
theorem FileDiskLayout_eq_spec_witness :
    FileDiskLayout 1474561 [] = FileDiskLayout_spec 1474561 ∧
    (¬ ((1474561 : Int) = 419284 ∨ (1474561 : Int) = 838484) →
      (FileDiskLayout 1474561 []).1 = 1474561 % 512 ∧
      0 ≤ (FileDiskLayout 1474561 []).1 ∧ (FileDiskLayout 1474561 []).1 ≤ 511 ∧
      (FileDiskLayout 1474561 []).2 = 1474561 - (FileDiskLayout 1474561 []).1) ∧
    FileDiskLayout 1474560 [] = (0, 1474560) ∧
    FileDiskLayout 1474561 [] = (1, 1474560) :=
  FileDiskLayout_eq_spec 1474561 [] (by decide) (by decide)

/-! ## `MacTimeToTime`: failure of the host conversions -/

/-- C9. When the host's `mktime` returns `-1` for the starting point (1 January 1904, or
1 January 1971 with `MKTIME_START_LATER`), `MacTimeToTime` returns `-1` for every guest
time and every pair of offsets. -/
theorem MacTimeToTime_start_failure (win32 : Bool) (h : Host) (result0 : Tm)
    (yearofs dayofs : Int) (t : Nat)
    (hfail : h.mktime (startingPoint win32) = -1) :
    MacTimeToTime win32 h result0 yearofs dayofs t = -1 ∧
    (startingPoint win32).tm_year = (if win32 then 71 else 4) ∧
    (startingPoint win32).tm_mon = 0 ∧ (startingPoint win32).tm_mday = 1 ∧
    (startingPoint win32).tm_hour = 0 ∧ (startingPoint win32).tm_min = 0 ∧
    (startingPoint win32).tm_sec = 0 := by
  refine ⟨?_, rfl, rfl, rfl, rfl, rfl, rfl⟩
  simp [MacTimeToTime, hfail]

/-- C9, witness: a host that represents no instant before 1970, asked for 1 January 1904
(no `MKTIME_START_LATER`), with a year offset of 2 and guest time 1000. -/
theorem MacTimeToTime_start_failure_witness :
    MacTimeToTime false from1970Host (civil 0) 2 0 1000 = -1 ∧
    (startingPoint false).tm_year = (if false then 71 else 4) ∧
    (startingPoint false).tm_mon = 0 ∧ (startingPoint false).tm_mday = 1 ∧
    (startingPoint false).tm_hour = 0 ∧ (startingPoint false).tm_min = 0 ∧
    (startingPoint false).tm_sec = 0 :=
  MacTimeToTime_start_failure false from1970Host (civil 0) 2 0 1000 (by decide)

/-- What holds of C10: with the starting point converted and an offset set, the provisional
instant is returned when `mktime` fails on the adjusted fields, and, on `WIN32`, when
`localtime` returns a null pointer. -/
theorem MacTimeToTime_keeps_provisional (win32 : Bool) (h : Host) (result0 : Tm)
    (yearofs dayofs : Int) (t : Nat)
    (hstart : h.mktime (startingPoint win32) ≠ -1)
    (hofs : dayofs ≠ 0 ∨ yearofs ≠ 0) :
    (win32 = true →
      h.localtime (provisional win32 (h.mktime (startingPoint win32)) t) = none →
      MacTimeToTime win32 h result0 yearofs dayofs t
        = provisional win32 (h.mktime (startingPoint win32)) t) ∧
    (∀ r : Tm,
      h.localtime (provisional win32 (h.mktime (startingPoint win32)) t) = some r →
      h.mktime
          { r with tm_year := i32 (r.tm_year - yearofs), tm_mday := i32 (r.tm_mday - dayofs) }
        = -1 →
      MacTimeToTime win32 h result0 yearofs dayofs t
        = provisional win32 (h.mktime (startingPoint win32)) t) := by
  constructor
  · intro hw hnone
    subst hw
    simp [MacTimeToTime, hstart, hofs, hnone]
  · intro r hr hm
    cases win32 <;> simp [MacTimeToTime, hstart, hofs, hr, hm]

/-- C10, the failing input: without `WIN32`, on a host whose `localtime_r` fails before
1970, guest time 0 with a year offset of 1. The provisional instant is -2082844800 and its
breakdown fails, yet the value returned is `mktime` of the stale contents of `result`
(here the breakdown of instant 0) with the offsets applied. -/
theorem MacTimeToTime_unchecked_localtime_r :
    noPastHost.mktime (startingPoint false) = -2082844800 ∧
    provisional false (noPastHost.mktime (startingPoint false)) 0 = -2082844800 ∧
    noPastHost.localtime (provisional false (noPastHost.mktime (startingPoint false)) 0)
      = none ∧
    MacTimeToTime false noPastHost (civil 0) 1 0 0 = -31536000 := by
  decide

/-! ## `FindFreeDriveNumber` -/

theorem driveNumber_lt (o : Offsets) (m : Mem) (e : Nat) : driveNumber o m e < 65536 := by
  unfold driveNumber ReadMacInt16
  omega

/-- One scan of a queue that ends: with enough fuel the loop answers whether `num` is the
drive number of no element. -/
theorem is_drive_number_free_loop_eq (o : Offsets) (m : Mem) (num : Int) :
    ∀ (k e fuel : Nat), queueEnds o m k e = true → k < fuel →
      is_drive_number_free_loop o m num fuel e = some (freeAmong o m (queueElems o m k e) num) := by
  intro k
  induction k with
  | zero =>
    intro e fuel hend hk
    obtain ⟨f, rfl⟩ : ∃ f, fuel = f + 1 := ⟨fuel - 1, by omega⟩
    have he : e = 0 := by simpa [queueEnds] using hend
    simp [is_drive_number_free_loop, he, queueElems, freeAmong]
  | succ k ih =>
    intro e fuel hend hk
    obtain ⟨f, rfl⟩ : ∃ f, fuel = f + 1 := ⟨fuel - 1, by omega⟩
    by_cases he : e = 0
    · simp [is_drive_number_free_loop, he, queueElems, freeAmong]
    · have hend2 : queueEnds o m k (ReadMacInt32 m (add32 e o.qLink)) = true := by
        simpa [queueEnds, he] using hend
      have hrec := ih (ReadMacInt32 m (add32 e o.qLink)) f hend2 (by omega)
      by_cases hd : (driveNumber o m e : Int) = num
      · simp [is_drive_number_free_loop, he, hd, queueElems, freeAmong]
      · simp only [is_drive_number_free_loop, if_neg he, if_neg hd, hrec]
        simp [queueElems, he, freeAmong, hd]

theorem freeAmong_of_out_of_range (o : Offsets) (m : Mem) (l : List Nat) (num : Int)
    (h : num < 0 ∨ 65536 ≤ num) : freeAmong o m l num = true := by
  unfold freeAmong
  rw [List.all_eq_true]
  intro e _
  have := driveNumber_lt o m e
  simp only [decide_eq_true_eq]
  omega

/-- The search over candidates: it stops at the first number from `n` on that is free, after
at most `d + 1` candidates when `65536 - n ≤ d`. -/
theorem FindFreeDriveNumber_search (o : Offsets) (m : Mem) (k qf : Nat)
    (hend : queueEnds o m k (driveQueueHead o m) = true) (hqf : k < qf) :
    ∀ (d : Nat) (n : Int) (nf : Nat), 65536 - n ≤ d → d < nf →
      ∃ r : Int, FindFreeDriveNumber o m qf nf n = some r ∧ n ≤ r ∧
        freeAmong o m (queueElems o m k (driveQueueHead o m)) r = true ∧
        ∀ j : Int, n ≤ j → j < r →
          freeAmong o m (queueElems o m k (driveQueueHead o m)) j = false := by
  have hscan : ∀ num : Int, is_drive_number_free o m qf num
      = some (freeAmong o m (queueElems o m k (driveQueueHead o m)) num) := fun num =>
    is_drive_number_free_loop_eq o m num k _ qf hend hqf
  intro d
  induction d with
  | zero =>
    intro n nf hd hnf
    obtain ⟨f, rfl⟩ : ∃ f, nf = f + 1 := ⟨nf - 1, by omega⟩
    have hfree := freeAmong_of_out_of_range o m (queueElems o m k (driveQueueHead o m)) n
      (Or.inr (by omega))
    refine ⟨n, ?_, le_refl _, hfree, fun j h1 h2 => absurd h2 (by omega)⟩
    simp [FindFreeDriveNumber, hscan, hfree]
  | succ d ih =>
    intro n nf hd hnf
    obtain ⟨f, rfl⟩ : ∃ f, nf = f + 1 := ⟨nf - 1, by omega⟩
    cases hfree : freeAmong o m (queueElems o m k (driveQueueHead o m)) n with
    | true =>
      refine ⟨n, ?_, le_refl _, hfree, fun j h1 h2 => absurd h2 (by omega)⟩
      simp [FindFreeDriveNumber, hscan, hfree]
    | false =>
      obtain ⟨r, hr, hle, hfr, hocc⟩ := ih (n + 1) f (by omega) (by omega)
      refine ⟨r, ?_, by omega, hfr, ?_⟩
      · simp [FindFreeDriveNumber, hscan, hfree, hr]
      · intro j h1 h2
        by_cases hj : j = n
        · rw [hj]; exact hfree
        · exact hocc j (by omega) h2

/-- C6. On a guest memory whose drive queue (from the head at `0x308 + qHead`, along the
link fields) reaches a zero link within `k` elements, `FindFreeDriveNumber(n)` returns,
with enough fuel, a number `r ≥ n` that is the drive number of no element of the queue,
while every number from `n` up to `r - 1` is the drive number of some element; so `r = n`
when `n` is unoccupied. A queue with the drive numbers 5, 6, 8 searched from 5 gives 7. -/
theorem FindFreeDriveNumber_smallest_free (o : Offsets) (m : Mem) (k : Nat) (n : Int)
    (hend : queueEnds o m k (driveQueueHead o m) = true) :
    (∃ r : Int,
      (∀ qf nf : Nat, k < qf → 65536 < nf → FindFreeDriveNumber o m qf nf n = some r) ∧
      n ≤ r ∧
      (∀ e ∈ queueElems o m k (driveQueueHead o m), (driveNumber o m e : Int) ≠ r) ∧
      (∀ j : Int, n ≤ j → j < r →
        ∃ e ∈ queueElems o m k (driveQueueHead o m), (driveNumber o m e : Int) = j) ∧
      ((∀ e ∈ queueElems o m k (driveQueueHead o m), (driveNumber o m e : Int) ≠ n) →
        r = n)) ∧
    (queueEnds macOffsets queue568 3 (driveQueueHead macOffsets queue568) = true ∧
      (queueElems macOffsets queue568 3 (driveQueueHead macOffsets queue568)).map
        (driveNumber macOffsets queue568) = [5, 6, 8] ∧
      FindFreeDriveNumber macOffsets queue568 4 65537 5 = some 7) := by
  refine ⟨?_, by decide, by decide, by decide⟩
  have hfree_iff : ∀ num : Int,
      freeAmong o m (queueElems o m k (driveQueueHead o m)) num = true ↔
        ∀ e ∈ queueElems o m k (driveQueueHead o m), (driveNumber o m e : Int) ≠ num := by
    intro num
    simp [freeAmong, List.all_eq_true]
  -- the bound on the number of candidates
  have hd : ∃ d : Nat, 65536 - n ≤ d ∧ (n < 0 ∨ d ≤ 65536) := by
    by_cases hn : n < 0
    · exact ⟨(65536 - n).toNat, by omega, Or.inl hn⟩
    · exact ⟨(65536 - n).toNat, by omega, Or.inr (by omega)⟩
  obtain ⟨d, hd1, hd2⟩ := hd
  obtain ⟨r, _, hle, hfr, hocc⟩ :=
    FindFreeDriveNumber_search o m k (k + 1) hend (by omega) d n (d + 1) hd1 (by omega)
  refine ⟨r, ?_, hle, (hfree_iff r).1 hfr, ?_, ?_⟩
  · intro qf nf hqf hnf
    rcases hd2 with hneg | hsmall
    · -- a negative candidate is free at once
      have hfree := freeAmong_of_out_of_range o m (queueElems o m k (driveQueueHead o m)) n
        (Or.inl hneg)
      have hrn : r = n := by
        by_contra hne
        have := hocc n (le_refl _) (by omega)
        rw [hfree] at this
        exact Bool.noConfusion this
      obtain ⟨f, rfl⟩ : ∃ f, nf = f + 1 := ⟨nf - 1, by omega⟩
      have hscan := is_drive_number_free_loop_eq o m n k _ qf hend hqf
      simp [FindFreeDriveNumber, is_drive_number_free, hrn] at *
      simp [driveQueueHead] at hscan hfree
      simp [hscan, hfree]
    · obtain ⟨r2, hr2, hle2, hfr2, hocc2⟩ :=
        FindFreeDriveNumber_search o m k qf hend hqf d n nf hd1 (by omega)
      have : r2 = r := by
        rcases lt_trichotomy r2 r with h | h | h
        · have := hocc r2 hle2 h; rw [hfr2] at this; exact Bool.noConfusion this
        · exact h
        · have := hocc2 r hle h; rw [hfr] at this; exact Bool.noConfusion this
      rw [← this]; exact hr2
  · intro j h1 h2
    have hnot := hocc j h1 h2
    by_contra hcon
    have : freeAmong o m (queueElems o m k (driveQueueHead o m)) j = true := by
      rw [hfree_iff]
      intro e he heq
      exact hcon ⟨e, he, heq⟩
    rw [this] at hnot
    exact Bool.noConfusion hnot
  · intro hn
    by_contra hne
    have h1 := hocc n (le_refl _) (by omega)
    rw [(hfree_iff n).2 hn] at h1
    exact Bool.noConfusion h1

/-- C6, witness: the queue with the drive numbers 5, 6, 8, searched from 5. -/
theorem FindFreeDriveNumber_smallest_free_witness :
    queueEnds macOffsets queue568 3 (driveQueueHead macOffsets queue568) = true ∧
    ((∃ r : Int,
      (∀ qf nf : Nat, 3 < qf → 65536 < nf →
        FindFreeDriveNumber macOffsets queue568 qf nf 5 = some r) ∧
      5 ≤ r ∧
      (∀ e ∈ queueElems macOffsets queue568 3 (driveQueueHead macOffsets queue568),
        (driveNumber macOffsets queue568 e : Int) ≠ r) ∧
      (∀ j : Int, 5 ≤ j → j < r →
        ∃ e ∈ queueElems macOffsets queue568 3 (driveQueueHead macOffsets queue568),
          (driveNumber macOffsets queue568 e : Int) = j) ∧
      ((∀ e ∈ queueElems macOffsets queue568 3 (driveQueueHead macOffsets queue568),
          (driveNumber macOffsets queue568 e : Int) ≠ 5) → r = 5)) ∧
    (queueEnds macOffsets queue568 3 (driveQueueHead macOffsets queue568) = true ∧
      (queueElems macOffsets queue568 3 (driveQueueHead macOffsets queue568)).map
        (driveNumber macOffsets queue568) = [5, 6, 8] ∧
      FindFreeDriveNumber macOffsets queue568 4 65537 5 = some 7)) :=
  ⟨by decide, FindFreeDriveNumber_smallest_free macOffsets queue568 3 5 (by decide)⟩

/-! ## Arithmetic of the machine operations and of the calendar -/

theorem u32_cast (x : Int) : (u32 x : Int) = x % 4294967296 := by
  unfold u32
  exact Int.toNat_of_nonneg (Int.emod_nonneg _ (by decide))

theorem i32_of_range (x : Int) (h1 : -2147483648 ≤ x) (h2 : x < 2147483648) : i32 x = x := by
  unfold i32; omega

theorem and32_3 (r : Int) : and32 r 3 = r % 4 := by
  unfold and32
  have h3 : u32 3 = 2 ^ 2 - 1 := by decide
  have hland : ∀ a b : Nat, Nat.land a b = a &&& b := fun _ _ => rfl
  rw [h3, hland, Nat.and_pow_two_sub_one_eq_mod]
  have h : Int.ofNat (u32 r % 2 ^ 2) = (r % 4294967296) % 4 := by
    rw [Int.ofNat_eq_coe, Int.natCast_mod, u32_cast]; rfl
  rw [h]
  unfold i32; omega

theorem shiftRight_two (x : Int) : Int.shiftRight x 2 = x / 4 := by
  have := Int.shiftRight_eq_div_pow x 2
  simpa using this

theorem daysBeforeYear_succ (y : Int) :
    daysBeforeYear (y + 1) = daysBeforeYear y + yearLength y := by
  unfold daysBeforeYear yearLength isLeapYear leapsThrough
  by_cases h4 : y % 4 = 0 <;> by_cases h100 : y % 100 = 0 <;> by_cases h400 : y % 400 = 0 <;>
    simp [h4, h100, h400] <;> omega

theorem daysBeforeYear_mono (y z : Int) (h : y ≤ z) : daysBeforeYear y ≤ daysBeforeYear z := by
  unfold daysBeforeYear leapsThrough
  omega

theorem intervening_leap_days_eq (ty : Int) (h1 : 4 ≤ ty) (h2 : ty + 1900 ≤ 2147483647) :
    intervening_leap_days ty = leapsThrough (ty + 1899) - leapsThrough 1903 := by
  have hb4 : leap4 MAC_EPOCH_YEAR MAC_EPOCH_YEAR = 475 := by decide
  have hb100 : leap100 475 = 19 := by decide
  have hb400 : leap400 19 = 4 := by decide
  have ha4 : leap4 (i32 (ty + TM_EPOCH_YEAR)) ty = (ty + 1899) / 4 := by
    unfold leap4 TM_EPOCH_YEAR cNot
    rw [and32_3, shiftRight_two, i32_of_range (ty + 1900) (by omega) (by omega)]
    split_ifs <;> unfold i32 <;> omega
  have ha100 : leap100 ((ty + 1899) / 4) = (ty + 1899) / 100 := by
    unfold leap100
    have hnn : (0 : Int) ≤ (ty + 1899) / 4 := by omega
    rw [Int.tdiv_eq_ediv hnn (by decide), Int.tmod_eq_emod hnn (by decide)]
    have : ¬ ((ty + 1899) / 4 % 25 < 0) := by omega
    rw [if_neg this]
    unfold i32; omega
  have ha400 : leap400 ((ty + 1899) / 100) = (ty + 1899) / 400 := by
    unfold leap400
    rw [shiftRight_two]; omega
  unfold intervening_leap_days
  simp only [hb4, hb100, hb400, ha4, ha100, ha400]
  unfold leapsThrough i32
  omega

theorem u32_i32 (x : Int) : u32 (i32 x) = u32 x := by
  unfold u32 i32
  congr 1
  omega

theorem daysSinceMacEpoch_eq (ty yd : Int) (h1 : 4 ≤ ty) (h2 : ty + 1900 ≤ 2147483647) :
    daysSinceMacEpoch ty yd = u32 (exactDays ty yd) := by
  unfold daysSinceMacEpoch exactDays
  rw [intervening_leap_days_eq ty h1 h2, u32_i32]
  unfold u32 i32
  congr 1
  omega

theorem exactDays_nonneg (ty yd : Int) (h1 : 4 ≤ ty) (h2 : 0 ≤ yd) : 0 ≤ exactDays ty yd := by
  unfold exactDays leapsThrough
  omega

theorem exactDays_eq_daysBeforeYear (ty yd : Int) :
    exactDays ty yd = yd + daysBeforeYear (ty + 1900) + 24107 := by
  unfold exactDays daysBeforeYear leapsThrough
  omega

theorem clipDayofs_le (days : Nat) (p : Int) : clipDayofs days p ≤ Int.ofNat days := by
  have hc := u32_cast (i32 (-p))
  have hr1 : -2147483648 ≤ i32 (-p) := by unfold i32; omega
  have hr2 : i32 (-p) < 2147483648 := by unfold i32; omega
  unfold clipDayofs
  simp only [Int.ofNat_eq_coe]
  split_ifs with h
  · obtain ⟨h1, h2⟩ := h
    have h3 : (days : Int) < (u32 (i32 (-p)) : Int) := by exact_mod_cast h2
    unfold i32; omega
  · rw [not_and_or] at h
    rcases h with h | h
    · omega
    · have h3 : (u32 (i32 (-p)) : Int) ≤ (days : Int) := by
        have : u32 (i32 (-p)) ≤ days := by omega
        exact_mod_cast this
      omega

theorem macSeconds_eq (tm : Tm) (days : Nat) (dayofs : Int) :
    macSeconds tm days dayofs
      = u32 (tm.tm_sec + 60 * (tm.tm_min + 60 * (tm.tm_hour
          + 24 * (Int.ofNat days - dayofs)))) := by
  unfold macSeconds
  simp only [Int.ofNat_eq_coe, u32_cast]
  unfold u32
  congr 1
  omega

/-! ## `TimeToMacTime` on the calendar host -/

theorem hour_min_sec (r : Int) : r % 60 + 60 * (r / 60 % 60 + 60 * (r / 3600)) = r := by
  have h1 : r / 60 / 60 = r / 3600 := by omega
  omega

/-- C3. Whatever the two offsets, and for every breakdown with non-negative day of the year,
hour, minute and second, `TimeToMacTime` uses a year that is at least 1904; the day count
before conversion to `uint32` is a non-negative integer (as long as the year fits an
`int`); the clamped day offset never exceeds the day count, so the difference is
non-negative; and the result is the composed number of seconds, a non-negative integer,
reduced modulo `2^32`. -/
theorem TimeToMacTime_never_before_epoch (tm : Tm) (yearofs dayofs : Int)
    (hyday : 0 ≤ tm.tm_yday) (hhour : 0 ≤ tm.tm_hour) (hmin : 0 ≤ tm.tm_min)
    (hsec : 0 ≤ tm.tm_sec) :
    MAC_EPOCH_YEAR ≤ clipYear tm.tm_year yearofs + TM_EPOCH_YEAR ∧
    (clipYear tm.tm_year yearofs + TM_EPOCH_YEAR ≤ 2147483647 →
      0 ≤ exactDays (clipYear tm.tm_year yearofs) tm.tm_yday ∧
      daysSinceMacEpoch (clipYear tm.tm_year yearofs) tm.tm_yday
        = u32 (exactDays (clipYear tm.tm_year yearofs) tm.tm_yday)) ∧
    0 ≤ Int.ofNat (daysSinceMacEpoch (clipYear tm.tm_year yearofs) tm.tm_yday)
        - clipDayofs (daysSinceMacEpoch (clipYear tm.tm_year yearofs) tm.tm_yday) dayofs ∧
    0 ≤ tm.tm_sec + 60 * (tm.tm_min + 60 * (tm.tm_hour + 24 *
        (Int.ofNat (daysSinceMacEpoch (clipYear tm.tm_year yearofs) tm.tm_yday)
          - clipDayofs (daysSinceMacEpoch (clipYear tm.tm_year yearofs) tm.tm_yday) dayofs))) ∧
    macTimeOfTm tm yearofs dayofs
      = u32 (tm.tm_sec + 60 * (tm.tm_min + 60 * (tm.tm_hour + 24 *
        (Int.ofNat (daysSinceMacEpoch (clipYear tm.tm_year yearofs) tm.tm_yday)
          - clipDayofs (daysSinceMacEpoch (clipYear tm.tm_year yearofs) tm.tm_yday) dayofs)))) ∧
    (∀ (win32 : Bool) (h : Host) (t : Int), h.localtime t = some tm →
      ¬ (win32 = true ∧ t = -1) →
      TimeToMacTime win32 h yearofs dayofs t = some (macTimeOfTm tm yearofs dayofs)) := by
  have hyear : 4 ≤ clipYear tm.tm_year yearofs := by
    unfold clipYear MAC_EPOCH_YEAR TM_EPOCH_YEAR
    exact le_max_left _ _
  have hclamp := clipDayofs_le (daysSinceMacEpoch (clipYear tm.tm_year yearofs) tm.tm_yday) dayofs
  refine ⟨?_, ?_, by omega, ?_, ?_, ?_⟩
  · unfold MAC_EPOCH_YEAR TM_EPOCH_YEAR; omega
  · intro hfit
    unfold TM_EPOCH_YEAR at hfit
    exact ⟨exactDays_nonneg _ _ hyear hyday, daysSinceMacEpoch_eq _ _ hyear hfit⟩
  · omega
  · unfold macTimeOfTm
    simp only
    rw [macSeconds_eq]
  · intro win32 h t hloc hguard
    unfold TimeToMacTime
    rw [if_neg hguard, hloc]

/-- C3, witness: 30 October 2025, 19:36:40, with a year offset of -500 and a day offset
preference of -100000: the year is clipped to 1904, the day offset to the day count, and the
result is the time of day. -/
theorem TimeToMacTime_never_before_epoch_witness :
    macTimeOfTm (civil 1761853000) (-500) (-100000) = 70600 ∧
    clipYear (civil 1761853000).tm_year (-500) = 4 ∧
    clipDayofs (daysSinceMacEpoch 4 (civil 1761853000).tm_yday) (-100000) = 302 :=
  ⟨((TimeToMacTime_never_before_epoch (civil 1761853000) (-500) (-100000)
      (by decide) (by decide) (by decide) (by decide)).2.2.2.2.1).trans (by decide),
    by decide, by decide⟩

/-! ## Round trips on the calendar host -/

theorem monthOfYday_range (leap : Bool) (yd : Int) :
    0 ≤ monthOfYday leap yd ∧ monthOfYday leap yd ≤ 11 := by
  unfold monthOfYday
  have h := List.length_filter_le
    (fun i => decide (daysBeforeMonth leap (Int.ofNat i + 1) ≤ yd)) (List.range 11)
  rw [List.length_range] at h
  simp only [Int.ofNat_eq_coe] at h ⊢
  omega

/-- On the calendar, converting a breakdown back gives the seconds it came from. -/
theorem civilSeconds_civil (s : Int) : civilSeconds (civil s) = s := by
  have hm := monthOfYday_range (isLeapYear (yearOfDay (s / 86400)))
    (s / 86400 - daysBeforeYear (yearOfDay (s / 86400)))
  have hms := hour_min_sec (s % 86400)
  unfold civilSeconds civil
  simp only
  have h1 : monthOfYday (isLeapYear (yearOfDay (s / 86400)))
      (s / 86400 - daysBeforeYear (yearOfDay (s / 86400))) / 12 = 0 := by omega
  have h2 : monthOfYday (isLeapYear (yearOfDay (s / 86400)))
      (s / 86400 - daysBeforeYear (yearOfDay (s / 86400))) % 12
      = monthOfYday (isLeapYear (yearOfDay (s / 86400)))
      (s / 86400 - daysBeforeYear (yearOfDay (s / 86400))) := by omega
  have h3 : 1900 + (yearOfDay (s / 86400) - 1900) + 0 = yearOfDay (s / 86400) := by omega
  rw [h1, h2, h3]
  omega

/-- The calendar host's `mktime` undoes its `localtime`. -/
theorem calendarHost_mktime_localtime (off : Int) (rep : Int → Bool) (t : Int) (tm : Tm)
    (h : (calendarHost off rep).localtime t = some tm) :
    (calendarHost off rep).mktime tm = t := by
  unfold calendarHost at *
  simp only at h ⊢
  by_cases hr : rep t = true
  · rw [if_pos hr] at h
    injection h with h
    subst h
    rw [civilSeconds_civil]
    have : t + off - off = t := by omega
    rw [this, if_pos hr]
  · rw [if_neg hr] at h
    exact Option.noConfusion h

theorem startingPoint_seconds (win32 : Bool) :
    civilSeconds (startingPoint win32) = if win32 then 31536000 else -2082844800 := by
  cases win32 <;> decide

/-- The `mktime` of `dstHost` undoes its `localtime` at every instant. -/
theorem dstHost_mktime_localtime (t : Int) (tm : Tm) (h : dstHost.localtime t = some tm) :
    dstHost.mktime tm = t := by
  unfold dstHost at *
  simp only at h ⊢
  by_cases hd : dstActive t = true
  · rw [if_pos hd] at h
    injection h with h
    subst h
    have hcs : civilSeconds { civil (t + 3600) with tm_isdst := 1 }
        = civilSeconds (civil (t + 3600)) := rfl
    simp only [hcs, civilSeconds_civil]
    rw [if_pos (by decide)]
    omega
  · rw [if_neg hd] at h
    injection h with h
    subst h
    have h0 : (civil t).tm_isdst = 0 := rfl
    rw [h0, if_neg (by decide), if_pos rfl, civilSeconds_civil]

/-- C11, as stated, fails: without `WIN32` there is no guard, and on a host at UTC the
instant `-1` is converted like any other (31 December 1969, 23:59:59). -/
theorem TimeToMacTime_minus_one_no_guard :
    TimeToMacTime false utcHost 0 0 (-1) = some 2082844799 := by
  decide

/-- C11, amended. In the `WIN32` build `TimeToMacTime(-1)` is 0, for every host (its
`localtime` is not called) and every pair of offsets. -/
theorem TimeToMacTime_minus_one_win32 (h : Host) (yearofs dayofs : Int) :
    TimeToMacTime true h yearofs dayofs (-1) = some 0 := by
  simp [TimeToMacTime]

/-! ## `DebugUtil` -/

/-- C12. With pairwise distinct selector constants (the labels of one `switch`),
`DebugUtil` returns 3 for `GetMax`, 0 for `Enter` and `Exit`, and 0 for `Poll` with exactly
one more invocation of `ADBInterrupt`; every other selector returns `paramErr` as a
`uint32`; and every selector other than `Poll` leaves the number of invocations as it
was. -/
theorem DebugUtil_table (c : DebugConsts) (calls : Nat)
    (h01 : c.duDebuggerGetMax ≠ c.duDebuggerEnter)
    (h02 : c.duDebuggerGetMax ≠ c.duDebuggerExit)
    (h03 : c.duDebuggerGetMax ≠ c.duDebuggerPoll)
    (h12 : c.duDebuggerEnter ≠ c.duDebuggerExit)
    (h13 : c.duDebuggerEnter ≠ c.duDebuggerPoll)
    (h23 : c.duDebuggerExit ≠ c.duDebuggerPoll) :
    DebugUtil c c.duDebuggerGetMax calls = (3, calls) ∧
    DebugUtil c c.duDebuggerEnter calls = (0, calls) ∧
    DebugUtil c c.duDebuggerExit calls = (0, calls) ∧
    DebugUtil c c.duDebuggerPoll calls = (0, calls + 1) ∧
    (∀ s : Nat, s ≠ c.duDebuggerGetMax → s ≠ c.duDebuggerEnter → s ≠ c.duDebuggerExit →
      s ≠ c.duDebuggerPoll → DebugUtil c s calls = (u32 c.paramErr, calls)) ∧
    (∀ s : Nat, s ≠ c.duDebuggerPoll → (DebugUtil c s calls).2 = calls) := by
  refine ⟨?_, ?_, ?_, ?_, ?_, ?_⟩
  · simp [DebugUtil]
  · simp [DebugUtil, h01.symm]
  · simp [DebugUtil, h02.symm, h12.symm]
  · simp [DebugUtil, h03.symm, h13.symm, h23.symm, ADBInterrupt]
  · intro s h0 h1 h2 h3
    simp [DebugUtil, h0, h1, h2, h3]
  · intro s h3
    unfold DebugUtil
    split_ifs <;> rfl

/-- C12, witness: the classic selector values 0, 1, 2, 3 and `paramErr = -50`, after two
earlier invocations of the interrupt signal. -/
theorem DebugUtil_table_witness :
    DebugUtil macDebugConsts 0 2 = (3, 2) ∧
    DebugUtil macDebugConsts 1 2 = (0, 2) ∧
    DebugUtil macDebugConsts 2 2 = (0, 2) ∧
    DebugUtil macDebugConsts 3 2 = (0, 3) ∧
    (∀ s : Nat, s ≠ 0 → s ≠ 1 → s ≠ 2 → s ≠ 3 →
      DebugUtil macDebugConsts s 2 = (u32 (-50), 2)) ∧
    (∀ s : Nat, s ≠ 3 → (DebugUtil macDebugConsts s 2).2 = 2) :=
  DebugUtil_table macDebugConsts 2 (by decide) (by decide) (by decide) (by decide)
    (by decide) (by decide)

/-! ## `FileDiskLayout`: the payload lies in the file -/

/-- C18. For every size from 0 up, `FileDiskLayout` gives a start byte and a payload size
that are not negative, a payload size that is a multiple of 512, and
`start_byte + real_size ≤ size`, with equality for every size other than the two magic
ones. -/
theorem FileDiskLayout_within_file (size : Int) (data : List Nat)
    (h0 : 0 ≤ size) (hhi : size < 9223372036854775808) :
    0 ≤ (FileDiskLayout size data).1 ∧ 0 ≤ (FileDiskLayout size data).2 ∧
    (FileDiskLayout size data).2 % 512 = 0 ∧
    (FileDiskLayout size data).1 + (FileDiskLayout size data).2 ≤ size ∧
    (¬ (size = 419284 ∨ size = 838484) →
      (FileDiskLayout size data).1 + (FileDiskLayout size data).2 = size) := by
  by_cases hm : size = 419284 ∨ size = 838484
  · rw [FileDiskLayout_ignores_data]
    rcases hm with h | h <;> subst h <;> decide
  · have hgen : FileDiskLayout size data = (size % 512, size - size % 512) := by
      simp only [FileDiskLayout, if_neg hm, and64_511]
      have : i64 (size - size % 512) = size - size % 512 := by unfold i64; omega
      rw [this]
    rw [hgen]
    refine ⟨?_, ?_, ?_, ?_, ?_⟩ <;> simp only <;> omega

/-- C18, witness: a 1.44 MB image with one stray leading byte. -/
theorem FileDiskLayout_within_file_witness :
    0 ≤ (FileDiskLayout 1474561 []).1 ∧ 0 ≤ (FileDiskLayout 1474561 []).2 ∧
    (FileDiskLayout 1474561 []).2 % 512 = 0 ∧
    (FileDiskLayout 1474561 []).1 + (FileDiskLayout 1474561 []).2 ≤ 1474561 ∧
    (¬ ((1474561 : Int) = 419284 ∨ (1474561 : Int) = 838484) →
      (FileDiskLayout 1474561 []).1 + (FileDiskLayout 1474561 []).2 = 1474561) :=
  FileDiskLayout_within_file 1474561 [] (by decide) (by decide)

/-! ## `FindFreeDriveNumber`: termination and bounds -/

/-- On a queue that ends, every sufficient fuel gives the same result: the first number from
`n` on that is free. -/
theorem FindFreeDriveNumber_first_free (o : Offsets) (m : Mem) (k : Nat) (n : Int)
    (hend : queueEnds o m k (driveQueueHead o m) = true) :
    ∃ r : Int,
      (∀ qf nf : Nat, k < qf → 65536 < nf → FindFreeDriveNumber o m qf nf n = some r) ∧
      n ≤ r ∧
      freeAmong o m (queueElems o m k (driveQueueHead o m)) r = true ∧
      ∀ j : Int, n ≤ j → j < r →
        freeAmong o m (queueElems o m k (driveQueueHead o m)) j = false := by
  by_cases hn : n < 0
  · -- a negative candidate is free at once
    have hfree := freeAmong_of_out_of_range o m (queueElems o m k (driveQueueHead o m)) n
      (Or.inl hn)
    refine ⟨n, ?_, le_refl _, hfree, fun j h1 h2 => absurd h2 (by omega)⟩
    intro qf nf hqf hnf
    obtain ⟨f, rfl⟩ : ∃ f, nf = f + 1 := ⟨nf - 1, by omega⟩
    have hscan : is_drive_number_free o m qf n
        = some (freeAmong o m (queueElems o m k (driveQueueHead o m)) n) :=
      is_drive_number_free_loop_eq o m n k _ qf hend hqf
    simp [FindFreeDriveNumber, hscan, hfree]
  · have hd : 65536 - n ≤ ((65536 - n).toNat : Int) := by omega
    have hd2 : (65536 - n).toNat ≤ 65536 := by omega
    obtain ⟨r, _, hle, hfr, hocc⟩ :=
      FindFreeDriveNumber_search o m k (k + 1) hend (by omega) (65536 - n).toNat n
        ((65536 - n).toNat + 1) hd (by omega)
    refine ⟨r, ?_, hle, hfr, hocc⟩
    intro qf nf hqf hnf
    obtain ⟨r2, hr2, hle2, hfr2, hocc2⟩ :=
      FindFreeDriveNumber_search o m k qf hend hqf (65536 - n).toNat n nf hd (by omega)
    have : r2 = r := by
      rcases lt_trichotomy r2 r with h | h | h
      · have := hocc r2 hle2 h; rw [hfr2] at this; exact Bool.noConfusion this
      · exact h
      · have := hocc2 r hle h; rw [hfr] at this; exact Bool.noConfusion this
    rw [← this]; exact hr2

/-- C19. On a guest memory whose drive queue reaches a zero link within `k` elements, and
for every starting number `n`, `FindFreeDriveNumber(n)` returns as soon as the fuel allows
65536 increments (65537 candidates): its result `r` satisfies `n ≤ r ≤ max(n, 65536)` and
`r - n ≤ 65536`, and `r = n` when `n < 0` or `n > 65535`. -/
theorem FindFreeDriveNumber_bounded (o : Offsets) (m : Mem) (k : Nat) (n : Int)
    (hend : queueEnds o m k (driveQueueHead o m) = true) :
    ∃ r : Int,
      (∀ qf nf : Nat, k < qf → 65536 < nf → FindFreeDriveNumber o m qf nf n = some r) ∧
      FindFreeDriveNumber o m (k + 1) 65537 n = some r ∧
      n ≤ r ∧ r ≤ max n 65536 ∧ r - n ≤ 65536 ∧
      ((n < 0 ∨ 65535 < n) → r = n) := by
  obtain ⟨r, hres, hle, _, hocc⟩ := FindFreeDriveNumber_first_free o m k n hend
  have hout : ∀ j : Int, n ≤ j → (j < 0 ∨ 65536 ≤ j) → r ≤ j := by
    intro j h1 h2
    by_contra hlt
    have h3 := hocc j h1 (by omega)
    rw [freeAmong_of_out_of_range o m _ j h2] at h3
    exact Bool.noConfusion h3
  have hmax : r ≤ max n 65536 :=
    hout (max n 65536) (le_max_left _ _) (Or.inr (le_max_right _ _))
  refine ⟨r, hres, hres (k + 1) 65537 (by omega) (by omega), hle, hmax, ?_, ?_⟩
  · rcases le_total n 65536 with h | h
    · rw [max_eq_right h] at hmax
      by_cases hn : n < 0
      · have := hout n (le_refl _) (Or.inl hn)
        omega
      · omega
    · rw [max_eq_left h] at hmax
      omega
  · intro h
    have := hout n (le_refl _) (by omega)
    omega

/-- C19, witness: the queue with the drive numbers 5, 6, 8, searched from 5. -/
theorem FindFreeDriveNumber_bounded_witness :
    ∃ r : Int,
      (∀ qf nf : Nat, 3 < qf → 65536 < nf →
        FindFreeDriveNumber macOffsets queue568 qf nf 5 = some r) ∧
      FindFreeDriveNumber macOffsets queue568 (3 + 1) 65537 5 = some r ∧
      5 ≤ r ∧ r ≤ max 5 65536 ∧ r - 5 ≤ 65536 ∧
      (((5 : Int) < 0 ∨ (65535 : Int) < 5) → r = 5) :=
  FindFreeDriveNumber_bounded macOffsets queue568 3 5 (by decide)

/-! ## `TimeToMacTime`: the day count -/

theorem daysInYears_eq (n : Nat) :
    daysInYears 1904 n = daysBeforeYear (1904 + n) - daysBeforeYear 1904 := by
  induction n with
  | zero => simp [daysInYears]
  | succ n ih =>
    have h := daysBeforeYear_succ (1904 + (n : Int))
    have e : (1904 : Int) + ((n + 1 : Nat) : Int) = 1904 + (n : Int) + 1 := by
      push_cast; ring
    rw [daysInYears, ih, e, h]
    ring

theorem clipYear_zero (ty : Int) (h1 : 4 ≤ ty) (h2 : ty ≤ 2147483647) :
    clipYear ty 0 = ty := by
  unfold clipYear MAC_EPOCH_YEAR TM_EPOCH_YEAR
  rw [Int.add_zero, i32_of_range _ (by omega) (by omega)]
  exact max_eq_right (by omega)

theorem exactDays_eq_daysInYears (ty yd : Int) (h1 : 4 ≤ ty) :
    exactDays ty yd = yd + daysInYears 1904 (ty - 4).toNat := by
  rw [exactDays_eq_daysBeforeYear, daysInYears_eq]
  have h1904 : daysBeforeYear 1904 = -24107 := by decide
  have e : (1904 : Int) + ((ty - 4).toNat : Int) = ty + 1900 := by omega
  rw [e, h1904]
  omega

theorem clipDayofs_zero (days : Nat) : clipDayofs days 0 = 0 := by
  unfold clipDayofs
  have h0 : i32 0 = 0 := by decide
  simp [h0]

/-- C13. With zero offsets, for every breakdown with the year `Y ≥ 1904`, a day of the year
`yday ≥ 0` and a day count that fits the `int` it is computed in, the `days` of
`TimeToMacTime` is `yday` plus the sum of the lengths of the years `1904 ≤ y < Y` (366 for
a leap year of the Gregorian rule, 365 otherwise), and the result is composed from that
count. -/
theorem TimeToMacTime_days_exact (tm : Tm) (hyear : 4 ≤ tm.tm_year) (hyday : 0 ≤ tm.tm_yday)
    (hfit : tm.tm_yday + daysInYears 1904 (tm.tm_year - 4).toNat ≤ 2147483647) :
    Int.ofNat (daysSinceMacEpoch (clipYear tm.tm_year 0) tm.tm_yday)
      = tm.tm_yday + daysInYears 1904 (tm.tm_year - 4).toNat ∧
    macTimeOfTm tm 0 0 = u32 (tm.tm_sec + 60 * (tm.tm_min + 60 * (tm.tm_hour
      + 24 * (tm.tm_yday + daysInYears 1904 (tm.tm_year - 4).toNat)))) := by
  have hexact := exactDays_eq_daysInYears tm.tm_year tm.tm_yday hyear
  have hnn := exactDays_nonneg tm.tm_year tm.tm_yday hyear hyday
  have hty : tm.tm_year + 1900 ≤ 2147483647 := by
    have hx : exactDays tm.tm_year tm.tm_yday ≤ 2147483647 := by rw [hexact]; exact hfit
    unfold exactDays leapsThrough at hx
    omega
  have hclip := clipYear_zero tm.tm_year hyear (by omega)
  have hdays : Int.ofNat (daysSinceMacEpoch (clipYear tm.tm_year 0) tm.tm_yday)
      = tm.tm_yday + daysInYears 1904 (tm.tm_year - 4).toNat := by
    rw [hclip, daysSinceMacEpoch_eq _ _ hyear hty, Int.ofNat_eq_coe, u32_cast, hexact]
    omega
  refine ⟨hdays, ?_⟩
  unfold macTimeOfTm
  simp only
  rw [macSeconds_eq, clipDayofs_zero, hdays, Int.sub_zero]

/-- C13, witness: 11 March 1906 (day 69 of the year), 800 days after 1 January 1904. -/
theorem TimeToMacTime_days_exact_witness :
    Int.ofNat (daysSinceMacEpoch (clipYear (civil (-2013724800)).tm_year 0)
        (civil (-2013724800)).tm_yday) = 800 ∧
    (civil (-2013724800)).tm_year = 6 ∧ (civil (-2013724800)).tm_yday = 69 ∧
    daysInYears 1904 2 = 731 :=
  ⟨((TimeToMacTime_days_exact (civil (-2013724800)) (by decide) (by decide) (by decide)).1).trans
    (by decide), by decide, by decide, by decide⟩

/-! ## `TimeToMacTime`: the day offset -/

/-- C14, as stated, fails: for 30 October 2025, 19:36:40 (day count 44498, guest time
3844697800 without offsets) and the day offset preference 1, which does not exceed the day
count, the result is one day later, not one day earlier. -/
theorem TimeToMacTime_dayofs_not_subtracted :
    Int.ofNat (daysSinceMacEpoch (clipYear (civil 1761853000).tm_year 0)
      (civil 1761853000).tm_yday) = 44498 ∧
    macTimeOfTm (civil 1761853000) 0 1 = 3844784200 ∧
    u32 ((civil 1761853000).tm_sec + 60 * ((civil 1761853000).tm_min
      + 60 * ((civil 1761853000).tm_hour + 24 * (44498 - 1)))) = 3844611400 := by
  decide

/-- C14, amended. With zero year offset, for every breakdown with day count `days` and
every 32-bit day offset preference `d` with `-d ≤ days`, the result of `TimeToMacTime` is
`tm_sec + 60 * (tm_min + 60 * (tm_hour + 24 * (days + d)))` modulo `2^32`: the preference
is added to the day count. -/
theorem TimeToMacTime_adds_dayofs (tm : Tm) (d : Int)
    (hd1 : -2147483648 ≤ d) (hd2 : d ≤ 2147483647)
    (hle : -d ≤ Int.ofNat (daysSinceMacEpoch (clipYear tm.tm_year 0) tm.tm_yday)) :
    macTimeOfTm tm 0 d = u32 (tm.tm_sec + 60 * (tm.tm_min + 60 * (tm.tm_hour + 24 *
      (Int.ofNat (daysSinceMacEpoch (clipYear tm.tm_year 0) tm.tm_yday) + d)))) := by
  have hc := u32_cast (i32 (-d))
  have hclip : clipDayofs (daysSinceMacEpoch (clipYear tm.tm_year 0) tm.tm_yday) d
      = i32 (-d) := by
    unfold clipDayofs
    simp only
    rw [if_neg]
    rintro ⟨h1, h2⟩
    have h3 : (daysSinceMacEpoch (clipYear tm.tm_year 0) tm.tm_yday : Int)
        < (u32 (i32 (-d)) : Int) := by exact_mod_cast h2
    simp only [Int.ofNat_eq_coe] at hle
    unfold i32 at h1 h3 hc
    omega
  unfold macTimeOfTm
  simp only
  rw [macSeconds_eq, hclip]
  unfold u32 i32
  congr 1
  simp only [Int.ofNat_eq_coe]
  omega

/-- C14, amended, witness: 30 October 2025, 19:36:40 with the day offset preference 1. -/
theorem TimeToMacTime_adds_dayofs_witness :
    macTimeOfTm (civil 1761853000) 0 1 = 3844784200 :=
  (TimeToMacTime_adds_dayofs (civil 1761853000) 1 (by decide) (by decide) (by decide)).trans
    (by decide)

/-- C15. Whenever the amount to subtract, the local `int32 dayofs` holding the negated day
offset preference, exceeds the day count, it is clamped to the day count and the result of
`TimeToMacTime` is `tm_sec + 60 * (tm_min + 60 * tm_hour)` modulo `2^32`; for hour, minute
and second in `0 .. 23`, `0 .. 59`, `0 .. 59` that is the time of day itself, below
86400. -/
theorem TimeToMacTime_dayofs_clamped (tm : Tm) (yearofs p : Int)
    (hex : Int.ofNat (daysSinceMacEpoch (clipYear tm.tm_year yearofs) tm.tm_yday)
      < i32 (-p)) :
    clipDayofs (daysSinceMacEpoch (clipYear tm.tm_year yearofs) tm.tm_yday) p
      = Int.ofNat (daysSinceMacEpoch (clipYear tm.tm_year yearofs) tm.tm_yday) ∧
    macTimeOfTm tm yearofs p = u32 (tm.tm_sec + 60 * (tm.tm_min + 60 * tm.tm_hour)) ∧
    (0 ≤ tm.tm_hour → tm.tm_hour ≤ 23 → 0 ≤ tm.tm_min → tm.tm_min ≤ 59 →
      0 ≤ tm.tm_sec → tm.tm_sec ≤ 59 →
      Int.ofNat (macTimeOfTm tm yearofs p) = tm.tm_sec + 60 * (tm.tm_min + 60 * tm.tm_hour) ∧
      macTimeOfTm tm yearofs p < 86400) := by
  have hc := u32_cast (i32 (-p))
  have hr : i32 (-p) < 2147483648 := by unfold i32; omega
  have hclip : clipDayofs (daysSinceMacEpoch (clipYear tm.tm_year yearofs) tm.tm_yday) p
      = Int.ofNat (daysSinceMacEpoch (clipYear tm.tm_year yearofs) tm.tm_yday) := by
    unfold clipDayofs
    simp only [Int.ofNat_eq_coe] at hex ⊢
    have hlt : daysSinceMacEpoch (clipYear tm.tm_year yearofs) tm.tm_yday
        < u32 (i32 (-p)) := by
      have : (daysSinceMacEpoch (clipYear tm.tm_year yearofs) tm.tm_yday : Int)
          < (u32 (i32 (-p)) : Int) := by omega
      exact_mod_cast this
    rw [if_pos ⟨by omega, hlt⟩]
    exact i32_of_range _ (by omega) (by omega)
  have hres : macTimeOfTm tm yearofs p
      = u32 (tm.tm_sec + 60 * (tm.tm_min + 60 * tm.tm_hour)) := by
    unfold macTimeOfTm
    simp only
    rw [macSeconds_eq, hclip, Int.sub_self]
    congr 1
    omega
  refine ⟨hclip, hres, ?_⟩
  intro h1 h2 h3 h4 h5 h6
  have hv := u32_cast (tm.tm_sec + 60 * (tm.tm_min + 60 * tm.tm_hour))
  rw [← hres, Int.emod_eq_of_lt (by omega) (by omega)] at hv
  simp only [Int.ofNat_eq_coe]
  constructor
  · omega
  · have : (macTimeOfTm tm yearofs p : Int) < 86400 := by omega
    exact_mod_cast this

/-- C15, witness: 30 October 2025, 19:36:40 (day count 44498) with the day offset
preference -100000: the result is 19:36:40 on day zero. -/
theorem TimeToMacTime_dayofs_clamped_witness :
    macTimeOfTm (civil 1761853000) 0 (-100000) = 70600 ∧
    clipDayofs (daysSinceMacEpoch (clipYear (civil 1761853000).tm_year 0)
      (civil 1761853000).tm_yday) (-100000) = 44498 :=
  ⟨((TimeToMacTime_dayofs_clamped (civil 1761853000) 0 (-100000) (by decide)).2.1).trans
      (by decide),
   ((TimeToMacTime_dayofs_clamped (civil 1761853000) 0 (-100000) (by decide)).1).trans
      (by decide)⟩

/-! ## The starting point of 1971 -/

/-- C16. The constant that `MacTimeToTime` subtracts with `MKTIME_START_LATER` is 2114380800;
it is 24472 days of 86400 seconds, 24472 being the sum of the lengths of the years 1904 to
1970; it is the value that the arithmetic of `TimeToMacTime` gives, with zero offsets, for
the breakdown of 1 January 1971, 00:00:00 (year 71, day of the year 0); and on a calendar
host that converts both 1 January 1904 and 1 January 1971, the two paths give the same
provisional instant for every guest time. -/
theorem start_later_constant (off : Int) (rep : Int → Bool) (t : Nat)
    (h1904 : (calendarHost off rep).mktime (startingPoint false) ≠ -1)
    (h1971 : (calendarHost off rep).mktime (startingPoint true) ≠ -1) :
    (∀ s : Int, provisional true s 0 = s - 2114380800) ∧
    (2114380800 : Int) = 24472 * 86400 ∧
    daysInYears 1904 67 = 24472 ∧
    (startingPoint true).tm_year = 71 ∧ (startingPoint true).tm_yday = 0 ∧
    macTimeOfTm (startingPoint true) 0 0 = 2114380800 ∧
    civilSeconds (startingPoint true) - civilSeconds (startingPoint false) = 2114380800 ∧
    provisional true ((calendarHost off rep).mktime (startingPoint true)) t
      = provisional false ((calendarHost off rep).mktime (startingPoint false)) t := by
  have hval : ∀ w : Bool, (calendarHost off rep).mktime (startingPoint w) ≠ -1 →
      (calendarHost off rep).mktime (startingPoint w) = civilSeconds (startingPoint w) - off := by
    intro w hw
    unfold calendarHost at hw ⊢
    simp only at hw ⊢
    by_cases hr : rep (civilSeconds (startingPoint w) - off) = true
    · rw [if_pos hr]
    · rw [if_neg hr] at hw
      exact absurd rfl hw
  refine ⟨?_, by decide, by decide, rfl, rfl, by decide, by decide, ?_⟩
  · intro s
    simp [provisional]
  · rw [hval true h1971, hval false h1904, startingPoint_seconds, startingPoint_seconds]
    simp [provisional]
    omega

/-- C16, witness: the host at UTC that represents every instant, guest time 1000. -/
theorem start_later_constant_witness :
    provisional true (utcHost.mktime (startingPoint true)) 1000
      = provisional false (utcHost.mktime (startingPoint false)) 1000 ∧
    provisional true (utcHost.mktime (startingPoint true)) 1000 = -2082843800 :=
  ⟨(start_later_constant 0 (fun _ => true) 1000 (by decide) (by decide)).2.2.2.2.2.2.2,
    by decide⟩

/-! ## `TimeToMacTime`: order -/

/-- The result of `TimeToMacTime` for a valid breakdown of 1904 .. 2039, with zero offsets:
no reduction modulo `2^32` takes place. -/
theorem macTimeOfTm_valid (tm : Tm) (hv : ValidLocal tm) :
    Int.ofNat (macTimeOfTm tm 0 0) = tm.tm_sec + 60 * (tm.tm_min + 60 * (tm.tm_hour
      + 24 * (tm.tm_yday + daysBeforeYear (tm.tm_year + 1900) + 24107))) ∧
    -24107 ≤ daysBeforeYear (tm.tm_year + 1900) ∧
    daysBeforeYear (tm.tm_year + 1900) ≤ 25202 := by
  obtain ⟨hy1, hy2, hd1, hd2, hh1, hh2, hm1, hm2, hs1, hs2⟩ := hv
  have hlen : yearLength (tm.tm_year + 1900) ≤ 366 := by
    unfold yearLength; split_ifs <;> omega
  have hlo := daysBeforeYear_mono 1904 (tm.tm_year + 1900) (by omega)
  have hhi := daysBeforeYear_mono (tm.tm_year + 1900) 2039 (by omega)
  have h1904 : daysBeforeYear 1904 = -24107 := by decide
  have h2039 : daysBeforeYear 2039 = 25202 := by decide
  have hclip := clipYear_zero tm.tm_year hy1 (by omega)
  have hdays : Int.ofNat (daysSinceMacEpoch (clipYear tm.tm_year 0) tm.tm_yday)
      = tm.tm_yday + daysBeforeYear (tm.tm_year + 1900) + 24107 := by
    rw [hclip, daysSinceMacEpoch_eq _ _ hy1 (by omega), Int.ofNat_eq_coe, u32_cast,
      exactDays_eq_daysBeforeYear]
    omega
  refine ⟨?_, by omega, by omega⟩
  unfold macTimeOfTm
  simp only
  rw [macSeconds_eq, clipDayofs_zero, hdays, Int.sub_zero, Int.ofNat_eq_coe, u32_cast]
  apply Int.emod_eq_of_lt <;> omega

/-- C20. With zero offsets, for two valid breakdowns (year in 1904 .. 2039, day of the year
from 0 and below the length of the year, hour, minute, second in `0 .. 23`, `0 .. 59`,
`0 .. 59`): if (year, day of the year, hour, minute, second) of the first is
lexicographically below that of the second, the guest time of the first is below the guest
time of the second. -/
theorem TimeToMacTime_strictly_monotone (a b : Tm) (ha : ValidLocal a) (hb : ValidLocal b)
    (hlt : LexLess a b) :
    macTimeOfTm a 0 0 < macTimeOfTm b 0 0 := by
  obtain ⟨ea, _, _⟩ := macTimeOfTm_valid a ha
  obtain ⟨eb, _, _⟩ := macTimeOfTm_valid b hb
  obtain ⟨hy1, hy2, hd1, hd2, hh1, hh2, hm1, hm2, hs1, hs2⟩ := ha
  obtain ⟨_, _, hbd1, _, hbh1, hbh2, hbm1, hbm2, hbs1, hbs2⟩ := hb
  have hgoal : Int.ofNat (macTimeOfTm a 0 0) < Int.ofNat (macTimeOfTm b 0 0) := by
    rw [ea, eb]
    unfold LexLess at hlt
    rcases hlt with hy | ⟨hy, hrest⟩
    · have hsucc := daysBeforeYear_succ (a.tm_year + 1900)
      have hmono := daysBeforeYear_mono (a.tm_year + 1900 + 1) (b.tm_year + 1900) (by omega)
      omega
    · rw [hy] at *
      omega
  exact Int.ofNat_lt.mp hgoal

/-- C20, witness: 31 December 1999, 23:59:59 and 1 January 2000, 00:00:00. -/
theorem TimeToMacTime_strictly_monotone_witness :
    macTimeOfTm (civil 946684799) 0 0 < macTimeOfTm (civil 946684800) 0 0 :=
  TimeToMacTime_strictly_monotone (civil 946684799) (civil 946684800) (by decide) (by decide)
    (by decide)

/-! ## `EnqueueMac`: the queue after the call -/

theorem write_outside (m : Mem) (f v a : Nat) (h : ¬ inField f a) :
    WriteMacInt32 m f v a = m a := by
  unfold inField at h
  unfold WriteMacInt32
  have h0 : ¬ a = f := by omega
  have h1 : ¬ a = f + 1 := by omega
  have h2 : ¬ a = f + 2 := by omega
  have h3 : ¬ a = f + 3 := by omega
  simp [h0, h1, h2, h3]

/-- The bytes that `EnqueueMac` leaves alone: all but the link field of `elem`, the tail
field, and the field it links `elem` into (the head field if the tail field read zero, the
link field of the old tail otherwise). -/
theorem EnqueueMac_frame (o : Offsets) (m : Mem) (elem list a : Nat)
    (h1 : ¬ inField (add32 elem o.qLink) a) (h2 : ¬ inField (add32 list o.qTail) a)
    (h3 : ¬ inField
      (if ReadMacInt32 (WriteMacInt32 m (add32 elem o.qLink) 0) (add32 list o.qTail) = 0
        then add32 list o.qHead
        else add32 (ReadMacInt32 (WriteMacInt32 m (add32 elem o.qLink) 0)
          (add32 list o.qTail)) o.qLink) a) :
    EnqueueMac o m elem list a = m a := by
  unfold EnqueueMac
  simp only
  split_ifs with h
  · rw [if_pos h] at h3
    rw [write_outside _ _ _ _ h2, write_outside _ _ _ _ h3, write_outside _ _ _ _ h1]
  · rw [if_neg h] at h3
    rw [write_outside _ _ _ _ h2, write_outside _ _ _ _ h3, write_outside _ _ _ _ h1]

theorem linked_ne_zero (o : Offsets) (m : Mem) :
    ∀ (l : List Nat) (e : Nat), linked o m e l = true → ∀ x ∈ l, x ≠ 0 := by
  intro l
  induction l with
  | nil => intro e _ x hx; cases hx
  | cons y ys ih =>
    intro e h x hx
    simp only [linked, Bool.and_eq_true, beq_iff_eq, bne_iff_ne, ne_eq] at h
    rcases List.mem_cons.1 hx with rfl | hx
    · exact h.1.2
    · exact ih _ h.2 x hx

/-- A queue that ends in `last` becomes the same queue followed by `elem`, in a memory where
the link fields of the earlier records read as before, the link field of `last` reads
`elem` and the link field of `elem` reads zero. -/
theorem linked_snoc (o : Offsets) (m m2 : Mem) (last elem : Nat) (helem : elem ≠ 0)
    (hlast : ReadMacInt32 m2 (add32 last o.qLink) = elem)
    (hnew : ReadMacInt32 m2 (add32 elem o.qLink) = 0) :
    ∀ (pre : List Nat) (e : Nat), linked o m e (pre ++ [last]) = true →
      (∀ x ∈ pre, ReadMacInt32 m2 (add32 x o.qLink) = ReadMacInt32 m (add32 x o.qLink)) →
      linked o m2 e (pre ++ [last] ++ [elem]) = true := by
  intro pre
  induction pre with
  | nil =>
    intro e h _
    simp only [List.nil_append, linked, Bool.and_eq_true, beq_iff_eq, bne_iff_ne, ne_eq] at h
    simp only [List.nil_append, List.singleton_append, linked, Bool.and_eq_true, beq_iff_eq,
      bne_iff_ne, ne_eq, hlast, hnew]
    exact ⟨⟨h.1.1, h.1.2⟩, ⟨trivial, helem⟩, trivial⟩
  | cons y ys ih =>
    intro e h hsame
    simp only [List.cons_append, linked, Bool.and_eq_true, beq_iff_eq, bne_iff_ne, ne_eq] at h
    simp only [List.cons_append, linked, Bool.and_eq_true, beq_iff_eq, bne_iff_ne, ne_eq]
    refine ⟨⟨h.1.1, h.1.2⟩, ?_⟩
    rw [hsame y (List.mem_cons_self _ _)]
    have := ih _ h.2 (fun x hx => hsame x (List.mem_cons_of_mem _ hx))
    simpa using this
/-- C17. Let the records `l = [e1, ..., en]` be linked from the head field of `list` up to
a zero link, with the tail field equal to `en` (zero when `n = 0`), and let `elem` be a
non-zero address such that the link fields of `e1, ..., en, elem` and the head and tail
fields share no byte with one another. After `EnqueueMac(elem, list)` the records linked
from the head field are `[e1, ..., en, elem]` up to a zero link, the tail field is `elem`,
and every byte outside the link field of `elem`, the tail field and the link field of `en`
(the head field when `n = 0`) is as before. -/
theorem EnqueueMac_appends (o : Offsets) (m : Mem) (elem list : Nat) (l : List Nat)
    (helem0 : elem ≠ 0) (helem : elem < 4294967296)
    (hq : linked o m (ReadMacInt32 m (add32 list o.qHead)) l = true)
    (htl : ReadMacInt32 m (add32 list o.qTail) = l.getLast?.getD 0)
    (hpair : (l ++ [elem]).Pairwise (fun a b => Apart (add32 a o.qLink) (add32 b o.qLink)))
    (hhdr : ∀ x ∈ l ++ [elem], Apart (add32 x o.qLink) (add32 list o.qHead) ∧
      Apart (add32 x o.qLink) (add32 list o.qTail))
    (hHT : Apart (add32 list o.qHead) (add32 list o.qTail)) :
    linked o (EnqueueMac o m elem list)
      (ReadMacInt32 (EnqueueMac o m elem list) (add32 list o.qHead)) (l ++ [elem]) = true ∧
    ReadMacInt32 (EnqueueMac o m elem list) (add32 list o.qTail) = elem ∧
    (∀ a : Nat, ¬ inField (add32 elem o.qLink) a → ¬ inField (add32 list o.qTail) a →
      ¬ inField (if l = [] then add32 list o.qHead
        else add32 (l.getLast?.getD 0) o.qLink) a →
      EnqueueMac o m elem list a = m a) := by
  have hmod : elem % 4294967296 = elem := Nat.mod_eq_of_lt helem
  have hE := hhdr elem (by simp)
  have hclear := tail_after_clear o m elem list hE.2
  rcases List.eq_nil_or_concat l with hnil | ⟨pre, last, hl⟩
  · -- the empty queue
    subst hnil
    have ht0 : ReadMacInt32 m (add32 list o.qTail) = 0 := by simpa using htl
    have hbr : ReadMacInt32 (WriteMacInt32 m (add32 elem o.qLink) 0) (add32 list o.qTail)
        = 0 := by rw [hclear]; exact ht0
    refine ⟨?_, ?_, ?_⟩
    · have hhead : ReadMacInt32 (EnqueueMac o m elem list) (add32 list o.qHead) = elem := by
        simp only [EnqueueMac, hbr, if_true]
        rw [read_write_apart _ _ _ _ hHT.symm, read_write_same, hmod]
      have hlink : ReadMacInt32 (EnqueueMac o m elem list) (add32 elem o.qLink) = 0 := by
        simp only [EnqueueMac, hbr, if_true]
        rw [read_write_apart _ _ _ _ hE.2.symm, read_write_apart _ _ _ _ hE.1.symm,
          read_write_same]
      simp [linked, hhead, hlink, helem0]
    · simp only [EnqueueMac, hbr, if_true]
      rw [read_write_same, hmod]
    · intro a h1 h2 h3
      apply EnqueueMac_frame o m elem list a h1 h2
      rw [if_pos hbr]
      simpa using h3
  · -- the queue `pre ++ [last]`
    rw [List.concat_eq_append] at hl
    subst hl
    have hlast_mem : last ∈ pre ++ [last] := by simp
    have hlast0 : last ≠ 0 := linked_ne_zero o m _ _ hq last hlast_mem
    have ht : ReadMacInt32 m (add32 list o.qTail) = last := by
      rw [htl]; simp
    have hbr : ReadMacInt32 (WriteMacInt32 m (add32 elem o.qLink) 0) (add32 list o.qTail)
        = last := by rw [hclear]; exact ht
    have hL := hhdr last (by simp)
    rw [List.pairwise_append] at hpair
    obtain ⟨hpp, _, hcross⟩ := hpair
    rw [List.pairwise_append] at hpp
    obtain ⟨_, _, hprelast⟩ := hpp
    have hLE : Apart (add32 last o.qLink) (add32 elem o.qLink) :=
      hcross last hlast_mem elem (by simp)
    have hmem : EnqueueMac o m elem list
        = WriteMacInt32 (WriteMacInt32 (WriteMacInt32 m (add32 elem o.qLink) 0)
            (add32 last o.qLink) elem) (add32 list o.qTail) elem := by
      simp only [EnqueueMac, hbr, if_neg hlast0]
    refine ⟨?_, ?_, ?_⟩
    · have hhead : ReadMacInt32 (EnqueueMac o m elem list) (add32 list o.qHead)
          = ReadMacInt32 m (add32 list o.qHead) := by
        rw [hmem, read_write_apart _ _ _ _ hHT.symm, read_write_apart _ _ _ _ hL.1,
          read_write_apart _ _ _ _ hE.1]
      rw [hhead]
      apply linked_snoc o m _ last elem helem0 _ _ pre _ hq
      · intro x hx
        have hX := hhdr x (by simp [hx])
        have hXL : Apart (add32 x o.qLink) (add32 last o.qLink) :=
          hprelast x hx last (by simp)
        have hXE : Apart (add32 x o.qLink) (add32 elem o.qLink) :=
          hcross x (by simp [hx]) elem (by simp)
        rw [hmem, read_write_apart _ _ _ _ hX.2.symm, read_write_apart _ _ _ _ hXL.symm,
          read_write_apart _ _ _ _ hXE.symm]
      · rw [hmem, read_write_apart _ _ _ _ hL.2.symm, read_write_same, hmod]
      · rw [hmem, read_write_apart _ _ _ _ hE.2.symm, read_write_apart _ _ _ _ hLE,
          read_write_same]
    · rw [hmem, read_write_same, hmod]
    · intro a h1 h2 h3
      apply EnqueueMac_frame o m elem list a h1 h2
      rw [hbr, if_neg hlast0]
      simpa using h3

/-- C17, witness: with the classic offsets, the queue at 2000 holds the record at 1000; the
record at 1100 is enqueued. -/
theorem EnqueueMac_appends_witness :
    linked macOffsets (EnqueueMac macOffsets (EnqueueMac macOffsets zeroMem 1000 2000) 1100 2000)
      (ReadMacInt32
        (EnqueueMac macOffsets (EnqueueMac macOffsets zeroMem 1000 2000) 1100 2000)
        (add32 2000 macOffsets.qHead)) ([1000] ++ [1100]) = true ∧
    ReadMacInt32 (EnqueueMac macOffsets (EnqueueMac macOffsets zeroMem 1000 2000) 1100 2000)
      (add32 2000 macOffsets.qTail) = 1100 ∧
    (∀ a : Nat, ¬ inField (add32 1100 macOffsets.qLink) a →
      ¬ inField (add32 2000 macOffsets.qTail) a →
      ¬ inField (if [1000] = [] then add32 2000 macOffsets.qHead
        else add32 (([1000] : List Nat).getLast?.getD 0) macOffsets.qLink) a →
      EnqueueMac macOffsets (EnqueueMac macOffsets zeroMem 1000 2000) 1100 2000 a
        = EnqueueMac macOffsets zeroMem 1000 2000 a) :=
  EnqueueMac_appends macOffsets (EnqueueMac macOffsets zeroMem 1000 2000) 1100 2000 [1000]
    (by decide) (by decide) (by decide) (by decide) (by decide) (by decide) (by decide)

end MacosUtil
